import Mathlib

/-!
Shallow embedding of the `balsa` micro-templating engine.

Sources embedded:
  `src/balsa/src/parser.rs`             — generic parser-combinator engine
  `src/balsa/src/balsa_parser.rs`       — the template grammar
  `src/balsa/src/balsa_compiler.rs`     — token-stream compiler
  `src/balsa/src/balsa_renderer.rs`     — instruction-replay renderer
  `src/balsa/src/balsa_type_cast.rs`    — directional value casts
  `src/balsa/src/validators.rs`         — CSS colour validator
  `src/balsa/src/parameters_builder.rs` — runtime parameter builder

Modelling conventions:
  * Rust `&str` windows become `List Char` suffixes of the original input;
    positions (`i32` in the source) become `Int`, `usize` becomes `Nat`.
  * Rust `HashMap<String, V>` becomes an association list with
    insert-replaces-existing semantics (`mapInsert` / `mapGet` below); where
    the source iterates a `HashMap` (whose order Rust leaves unspecified) the
    embedding iterates the list in insertion order.
  * `f64` payloads are modelled by `Int`.  Every float the embedded code paths
    construct is the image of an `i32` under `i32 -> f64`, a conversion that is
    exact and injective, so nothing the claims touch depends on the missing
    fractional values.
  * The `many` combinator (a `loop` in the source) is given explicit fuel,
    instantiated with `input.length + 1` at the top level; every repeated
    parser in the grammar consumes at least one character per success, so the
    fuel never runs out on the paths the source can take.
-/

-- Equality on `Except` results is decidable (used to evaluate the embedded
-- pipeline on concrete templates).
deriving instance DecidableEq for Except

/-- `Parsed<T>` from `parser.rs`: a token tagged with its source span. -/
structure Parsed (α : Type) where
  start_pos : Int
  end_pos : Int
  token : α
  deriving Repr, DecidableEq

/-- `ParseError` from `parser.rs`. -/
inductive ParseError where
  | notMatched
  | malformedInput (pos : Int)
  deriving Repr, DecidableEq

/-- `ParseResult<'a, T>`: remaining input plus the parsed token, or a failure. -/
abbrev ParseResult (α : Type) := Except ParseError (List Char × Parsed α)

/-- A parser is a function of the current position and the remaining input. -/
abbrev ParserFn (α : Type) := Int → List Char → ParseResult α

/-- The span context handed to `fmap`-style callbacks (the callbacks in
`balsa_parser.rs` receive the parsed token together with its span). -/
structure Span where
  start_pos : Int
  end_pos : Int
  deriving Repr, DecidableEq

/-- `fmap_result`: map a parser's token with a fallible function; the span is
unchanged. -/
def fmapResult {α β : Type} (p : ParserFn α) (f : α → Span → Except ParseError β) :
    ParserFn β := fun pos input =>
  match p pos input with
  | .ok (remainder, ⟨s, e, token⟩) =>
      match f token ⟨s, e⟩ with
      | .ok tok => .ok (remainder, ⟨s, e, tok⟩)
      | .error er => .error er
  | .error er => .error er

/-- `fmap`: map a parser's token with a total function; the span is unchanged. -/
def fmap {α β : Type} (p : ParserFn α) (f : α → Span → β) : ParserFn β :=
  fmapResult p (fun a s => .ok (f a s))

/-- `or`: try `left`; on *any* failure run `right` at the same position on the
same input (the source's closure is `|_| right.parse(pos, input)`). -/
def orP {α : Type} (l r : ParserFn α) : ParserFn α := fun pos input =>
  match l pos input with
  | .ok res => .ok res
  | .error _ => r pos input

/-- `fmap_result_chain`: run `left`, then `right` from `left`'s end position on
`left`'s remaining input; combine the tokens with a fallible `combinator`. -/
def fmapResultChain {α β γ : Type} (l : ParserFn α) (r : ParserFn β)
    (combinator : α → β → Except ParseError γ) : ParserFn γ := fun pos input =>
  match l pos input with
  | .error er => .error er
  | .ok (remainder, ⟨ls, le, ltok⟩) =>
      match r le remainder with
      | .error er => .error er
      | .ok (remainder', ⟨_, re, rtok⟩) =>
          match combinator ltok rtok with
          | .ok tok => .ok (remainder', ⟨ls, re, tok⟩)
          | .error er => .error er

/-- `fmap_chain`: `fmap_result_chain` with a total combinator. -/
def fmapChain {α β γ : Type} (l : ParserFn α) (r : ParserFn β)
    (combinator : α → β → γ) : ParserFn γ :=
  fmapResultChain l r (fun a b => .ok (combinator a b))

/-- `chain` at the `Combinable<char, String> for String` instance used by
`string_parser`: append the right character to the left string. -/
def chainStrChar (l : ParserFn String) (r : ParserFn Char) : ParserFn String :=
  fun pos input =>
  match l pos input with
  | .error er => .error er
  | .ok (remainder, ⟨ls, le, ltok⟩) =>
      match r le remainder with
      | .error er => .error er
      | .ok (remainder', ⟨_, re, rtok⟩) =>
          .ok (remainder', ⟨ls, re, ltok.push rtok⟩)

/-- `chain` at the `Combinable<Option<Vec<T>>, Vec<T>> for T` instance used by
`delimited_list`: prepend the left element to the (optional) right list. -/
def chainConsOpt {α : Type} (l : ParserFn α) (r : ParserFn (Option (List α))) :
    ParserFn (List α) := fun pos input =>
  match l pos input with
  | .error er => .error er
  | .ok (remainder, ⟨ls, le, ltok⟩) =>
      match r le remainder with
      | .error er => .error er
      | .ok (remainder', ⟨_, re, rtok⟩) =>
          .ok (remainder', ⟨ls, re, ltok :: (rtok.getD [])⟩)

/-- `optional`: `NotMatched` becomes a successful zero-width `none`; other
failures propagate. -/
def optionalP {α : Type} (p : ParserFn α) : ParserFn (Option α) :=
  fun pos input =>
  match p pos input with
  | .ok (remainder, ⟨s, e, token⟩) => .ok (remainder, ⟨s, e, some token⟩)
  | .error .notMatched => .ok (input, ⟨pos, pos, none⟩)
  | .error er => .error er

/-- `left`: sequence two parsers, keep the left token, merge the spans. -/
def leftKeep {α β : Type} (l : ParserFn α) (r : ParserFn β) : ParserFn α :=
  fun pos input =>
  match l pos input with
  | .error er => .error er
  | .ok (remainder, ⟨ls, le, ltok⟩) =>
      match r le remainder with
      | .error er => .error er
      | .ok (remainder', ⟨_, re, _⟩) =>
          .ok (remainder', ⟨ls, re, ltok⟩)

/-- `right`: sequence two parsers, keep the right token, merge the spans. -/
def rightKeep {α β : Type} (l : ParserFn α) (r : ParserFn β) : ParserFn β :=
  fun pos input =>
  match l pos input with
  | .error er => .error er
  | .ok (remainder, ⟨ls, le, _⟩) =>
      match r le remainder with
      | .error er => .error er
      | .ok (remainder', ⟨_, re, rtok⟩) =>
          .ok (remainder', ⟨ls, re, rtok⟩)

/-- `middle`: defined in the source as `right(left_p, left(middle_p, right_p))`. -/
def middleKeep {α β γ : Type} (l : ParserFn α) (m : ParserFn β) (r : ParserFn γ) :
    ParserFn β :=
  rightKeep l (leftKeep m r)

/-- The loop body of `many`, with explicit fuel standing in for the source's
unbounded `loop`.  Exhausted fuel stops the repetition exactly like a
`NotMatched` would; it is unreachable for parsers that consume at least one
character per success when the fuel is `input.length + 1`. -/
def manyAux {α : Type} (p : ParserFn α) : Nat → Int → List Char → ParseResult (List α)
  | 0, pos, input => .ok (input, ⟨pos, pos, []⟩)
  | fuel + 1, pos, input =>
      match p pos input with
      | .ok (remainder, ⟨_, e, token⟩) =>
          match manyAux p fuel e remainder with
          | .ok (remainder', ⟨_, re, rest⟩) =>
              .ok (remainder', ⟨pos, re, token :: rest⟩)
          | .error er => .error er
      | .error .notMatched => .ok (input, ⟨pos, pos, []⟩)
      | .error er => .error er

/-- `many`: apply `p` until it returns `NotMatched`, collecting the tokens;
any `MalformedInput` aborts the repetition. -/
def many {α : Type} (p : ParserFn α) : ParserFn (List α) := fun pos input =>
  manyAux p (input.length + 1) pos input

/-- `char_parser`: match exactly the character `value`. -/
def charP (value : Char) : ParserFn Char := fun pos input =>
  match input with
  | c :: rest =>
      if c = value then .ok (rest, ⟨pos, pos + 1, value⟩)
      else .error .notMatched
  | [] => .error .notMatched

/-- `string_parser`: the fold of `char_parser`s chained with
`Combinable<char, String>`, exactly as built in the source. -/
def stringP (value : String) : ParserFn String :=
  match value.toList with
  | [] => fun _ _ => .error .notMatched
  | c :: cs =>
      cs.foldl (fun acc p => chainStrChar acc (charP p))
        (fmap (charP c) (fun ch _ => String.singleton ch))

/-- `take_until_char_parser`: take characters until `terminator`; fails with
`NotMatched` if no character qualifies. -/
def takeUntilChar (terminator : Char) : ParserFn String := fun pos input =>
  let tok := input.takeWhile (fun x => x ≠ terminator)
  if tok.isEmpty then .error .notMatched
  else .ok (input.drop tok.length, ⟨pos, pos + tok.length, String.mk tok⟩)

/-- `take_while_chars_parser`: take characters belonging to `allowed`; fails
with `NotMatched` if no character qualifies. -/
def takeWhileChars (allowed : List Char) : ParserFn String := fun pos input =>
  let tok := input.takeWhile (fun x => allowed.contains x)
  if tok.isEmpty then .error .notMatched
  else .ok (input.drop tok.length, ⟨pos, pos + tok.length, String.mk tok⟩)

/-- `delimited_list`: `item (delimiter item)*`, or the empty list. -/
def delimitedList {α β : Type} (item : ParserFn α) (delimiter : ParserFn β) :
    ParserFn (List α) :=
  fmap
    (optionalP (chainConsOpt item
      (optionalP (many (fmapChain delimiter item (fun _ i => i))))))
    (fun t _ => t.getD [])

/-- `key_sep_value`: `<key><delimiter><value>`, returning the pair. -/
def keySepValue {κ δ ν : Type} (key : ParserFn κ) (delimiter : ParserFn δ)
    (value : ParserFn ν) : ParserFn (κ × ν) :=
  fmapChain key (rightKeep delimiter value) (fun k v => (k, v))

/-! ## Data model (`balsa_types.rs`) -/

/-- `BalsaType`: the four template types. -/
inductive BalsaType where
  | String
  | Color
  | Integer
  | Float
  deriving Repr, DecidableEq

/-- `BalsaValue`: a typed template value.  `f64` payloads are modelled by
`Int` (see the header note). -/
inductive BalsaValue where
  | String (s : String)
  | Color (s : String)
  | Integer (i : Int)
  | Float (f : Int)
  deriving Repr, DecidableEq

/-- `BalsaExpression`: the low-level syntactic classification. -/
inductive BalsaExpression where
  | Identifier (i : String)
  | Type (t : BalsaType)
  | Value (v : BalsaValue)
  deriving Repr, DecidableEq

/-- `BalsaExpression::as_identifier`. -/
def BalsaExpression.as_identifier : BalsaExpression → Option String
  | .Identifier s => some s
  | _ => none

/-- `BalsaExpression::as_type`. -/
def BalsaExpression.as_type : BalsaExpression → Option BalsaType
  | .Type t => some t
  | _ => none

/-- `BalsaExpression::as_value`. -/
def BalsaExpression.as_value : BalsaExpression → Option BalsaValue
  | .Value v => some v
  | _ => none

/-- `BalsaValue::get_type`. -/
def BalsaValue.get_type : BalsaValue → BalsaType
  | .String _ => .String
  | .Color _ => .Color
  | .Integer _ => .Integer
  | .Float _ => .Float

/-! ## Association-list model of `HashMap<String, V>` -/

/-- Whether the map holds an entry for the key. -/
def mapHasKey {α : Type} : List (String × α) → String → Bool
  | [], _ => false
  | p :: t, k => p.1 = k || mapHasKey t k

/-- `HashMap::insert`: replace the existing entry for the key, or add one. -/
def mapInsert {α : Type} (m : List (String × α)) (k : String) (v : α) :
    List (String × α) :=
  if mapHasKey m k then
    m.map (fun p => if p.1 = k then (k, v) else p)
  else m ++ [(k, v)]

/-- `HashMap::get` (cloned): the value stored for the key, if any. -/
def mapGet {α : Type} : List (String × α) → String → Option α
  | [], _ => none
  | p :: t, k => if p.1 = k then some p.2 else mapGet t k

/-- `tuple_vec_to_map` from `converters.rs`: fold the pairs into a map by
repeated insertion. -/
def tuple_vec_to_map {α : Type} (tuples : List (String × α)) : List (String × α) :=
  tuples.foldl (fun m kv => mapInsert m kv.1 kv.2) []

/-! ## Grammar (`balsa_parser.rs`) -/

/-- `OptionsMap`: the options of a parameter block. -/
abbrev OptionsMap := List (String × BalsaExpression)

/-- `Block<T>` from `balsa_parser.rs`. -/
structure Block (α : Type) where
  start_pos : Int
  end_pos : Int
  token : α
  deriving Repr, DecidableEq

/-- A single `name : type = value` declaration. -/
structure Declaration where
  identifier : BalsaExpression
  variable_type : BalsaExpression
  value : BalsaExpression
  deriving Repr, DecidableEq

/-- Intermediate representation for a parameter block. -/
structure ParameterBlockIntermediate where
  variable_name : BalsaExpression
  variable_type : BalsaExpression
  options : Option OptionsMap
  deriving Repr, DecidableEq

/-- `BalsaToken`: a parsed block. -/
inductive BalsaToken where
  | DeclarationBlock (b : Block (List Declaration))
  | ParameterBlock (b : Block ParameterBlockIntermediate)
  deriving Repr, DecidableEq

/-- `ALLOWED_VARIABLE_CHARACTERS` (note the source string omits `0`). -/
def ALLOWED_VARIABLE_CHARACTERS : List Char :=
  "abcdefghijklmnopqrstuvwxyzABCDEFGHIJKLMNOPQRSTUVWXYZ123456789-_".toList

/-- `DIGITS`. -/
def DIGITS : List Char := "1234567890".toList

/-- `i64::from_str` on the radix-10 tokens the grammar produces: an optional
sign followed by decimal digits, rejected on 64-bit overflow. -/
def parseI64 (s : String) : Option Int :=
  let digitsVal : List Char → Option Nat := fun l =>
    if l ≠ [] ∧ l.all Char.isDigit then
      some (l.foldl (fun a c => a * 10 + (c.toNat - 48)) 0)
    else none
  match s.toList with
  | '+' :: ds => (digitsVal ds).bind fun n =>
      if (n : Int) ≤ 9223372036854775807 then some (n : Int) else none
  | '-' :: ds => (digitsVal ds).bind fun n =>
      if (n : Int) ≤ 9223372036854775808 then some (-(n : Int)) else none
  | ds => (digitsVal ds).bind fun n =>
      if (n : Int) ≤ 9223372036854775807 then some (n : Int) else none

/-- `parameter_open_bracket_p`. -/
def parameterOpenBracketP : ParserFn Unit :=
  fmap (stringP "\x7b\x7b") (fun _ _ => ())

/-- `declaration_open_bracket_p`. -/
def declarationOpenBracketP : ParserFn Unit :=
  fmap (stringP "\x7b\x7b@") (fun _ _ => ())

/-- `closing_bracket_p`. -/
def closingBracketP : ParserFn Unit :=
  fmap (stringP "\x7d\x7d") (fun _ _ => ())

/-- `ws_p`: an optional run of space/tab/newline. -/
def wsP : ParserFn Unit :=
  fmap (optionalP (takeWhileChars [' ', '\t', '\n'])) (fun _ _ => ())

/-- `ws_padded_p`. -/
def wsPadded {α : Type} (p : ParserFn α) : ParserFn α :=
  middleKeep wsP p wsP

/-- `variable_name_p`. -/
def variableNameP : ParserFn String :=
  takeWhileChars ALLOWED_VARIABLE_CHARACTERS

/-- `string_literal_p`. -/
def stringLiteralP : ParserFn BalsaValue :=
  fmap (middleKeep (charP '"') (takeUntilChar '"') (charP '"'))
    (fun s _ => BalsaValue.String s)

/-- `int_literal_p`: digits parsed as `i64`; overflow is `MalformedInput(0)`. -/
def intLiteralP : ParserFn BalsaValue :=
  fmapResult (takeWhileChars DIGITS) (fun token _ =>
    match parseI64 token with
    | some val => .ok (BalsaValue.Integer val)
    | none => .error (.malformedInput 0))

/-- `balsa_type_p`: `string` / `color` / `int` / `float`, in that order. -/
def balsaTypeP : ParserFn BalsaType :=
  orP (fmap (stringP "string") (fun _ _ => BalsaType.String))
    (orP (fmap (stringP "color") (fun _ _ => BalsaType.Color))
      (orP (fmap (stringP "int") (fun _ _ => BalsaType.Integer))
        (fmap (stringP "float") (fun _ _ => BalsaType.Float))))

/-- `balsa_value_p`: string literal, else integer literal. -/
def balsaValueP : ParserFn BalsaValue :=
  orP stringLiteralP intLiteralP

/-- `balsa_expr_p`: value, else type, else identifier. -/
def balsaExprP : ParserFn BalsaExpression :=
  orP (fmap balsaValueP (fun v _ => BalsaExpression.Value v))
    (orP (fmap balsaTypeP (fun t _ => BalsaExpression.Type t))
      (fmap variableNameP (fun v _ => BalsaExpression.Identifier v)))

/-- `key_value_delimiter_p`: a whitespace-padded `:`. -/
def keyValueDelimiterP : ParserFn Unit :=
  fmap (wsPadded (charP ':')) (fun _ _ => ())

/-- `variable_with_type_p`: `<expr> : <expr>`. -/
def variableWithTypeP : ParserFn (BalsaExpression × BalsaExpression) :=
  keySepValue balsaExprP keyValueDelimiterP balsaExprP

/-- `key_value_p`: `<name> : <expr>`. -/
def keyValueP : ParserFn (String × BalsaExpression) :=
  keySepValue variableNameP keyValueDelimiterP balsaExprP

/-- `list_delimeter`: a whitespace-padded `,`. -/
def listDelimiterP : ParserFn Unit :=
  fmap (wsPadded (charP ',')) (fun _ _ => ())

/-- `declaration_delimiter_p`: a whitespace-padded `=`. -/
def declarationDelimiterP : ParserFn Unit :=
  fmap (wsPadded (charP '=')) (fun _ _ => ())

/-- `declaration_p`: `<name> : <type> = <value>` (each an expression). -/
def declarationP : ParserFn Declaration :=
  fmapChain variableWithTypeP (rightKeep declarationDelimiterP balsaExprP)
    (fun it v => Declaration.mk it.1 it.2 v)

/-- `declaration_block_p`. -/
def declarationBlockP : ParserFn BalsaToken :=
  fmap
    (middleKeep declarationOpenBracketP
      (wsPadded (delimitedList declarationP listDelimiterP))
      closingBracketP)
    (fun d ctx => BalsaToken.DeclarationBlock ⟨ctx.start_pos, ctx.end_pos, d⟩)

/-- `parameter_block_p`. -/
def parameterBlockP : ParserFn BalsaToken :=
  fmap
    (middleKeep parameterOpenBracketP
      (wsPadded (fmapChain variableWithTypeP
        (optionalP (rightKeep listDelimiterP (delimitedList keyValueP listDelimiterP)))
        (fun it optionsList =>
          ParameterBlockIntermediate.mk it.1 it.2 (optionsList.map tuple_vec_to_map))))
      closingBracketP)
    (fun p ctx => BalsaToken.ParameterBlock ⟨ctx.start_pos, ctx.end_pos, p⟩)

/-- `block_p`: parameter block, else declaration block. -/
def blockP : ParserFn BalsaToken :=
  orP parameterBlockP declarationBlockP

/-- The step repeated by `balsa_p`'s document scanner: literal text up to the
next `{`, then a block, else a run of `{` characters treated as literal text. -/
def balsaStepP : ParserFn (Option BalsaToken) :=
  rightKeep (takeUntilChar '\x7b')
    (orP (fmap blockP (fun v _ => some v))
      (fmap (takeWhileChars ['\x7b']) (fun _ _ => none)))

/-- `balsa_p`: the whole-document scanner. -/
def balsaP : ParserFn (List BalsaToken) :=
  fmap (many balsaStepP) (fun v _ => v.flatMap Option.toList)

/-! ## Errors (`errors.rs`) -/

/-- `TemplateParseFail`. -/
inductive TemplateParseFail where
  | Generic
  deriving Repr, DecidableEq

/-- `TemplateErrorContext<T>`: an error plus the character position at which it
occurred. -/
structure TemplateErrorContext (α : Type) where
  pos : Nat
  error : α
  deriving Repr, DecidableEq

/-- `InvalidTypeCast` (the fields `from`/`to` are spelled `from_`/`to_`
because both are Lean keywords). -/
structure InvalidTypeCast where
  value : BalsaValue
  from_ : BalsaType
  to_ : BalsaType
  deriving Repr, DecidableEq

/-- `InvalidTypeExpression`. -/
structure InvalidTypeExpression where
  expression : BalsaExpression
  deriving Repr, DecidableEq

/-- `InvalidExpression`. -/
structure InvalidExpression where
  expression : BalsaExpression
  deriving Repr, DecidableEq

/-- `InvalidIdentifierForParameterBlock`. -/
structure InvalidIdentifierForParameterBlock where
  expression : BalsaExpression
  deriving Repr, DecidableEq

/-- `InvalidIdentifierForDeclarationBlock`. -/
structure InvalidIdentifierForDeclarationBlock where
  expression : BalsaExpression
  deriving Repr, DecidableEq

/-- `InvalidParameter`. -/
structure InvalidParameter where
  parameter_name : String
  deriving Repr, DecidableEq

/-- `BalsaCompileError`. -/
inductive BalsaCompileError where
  | TemplateParseFail (e : TemplateErrorContext TemplateParseFail)
  | InvalidTypeCast (e : TemplateErrorContext InvalidTypeCast)
  | InvalidTypeExpression (e : TemplateErrorContext InvalidTypeExpression)
  | InvalidExpression (e : TemplateErrorContext InvalidExpression)
  | InvalidIdentifierForParameterBlock
      (e : TemplateErrorContext InvalidIdentifierForParameterBlock)
  | InvalidIdentifierForDeclarationBlock
      (e : TemplateErrorContext InvalidIdentifierForDeclarationBlock)
  | InvalidParameter (e : TemplateErrorContext InvalidParameter)
  deriving Repr, DecidableEq

/-- `MissingParameter`. -/
structure MissingParameter where
  parameter_name : String
  deriving Repr, DecidableEq

/-- `InvalidParameterType`. -/
structure InvalidParameterType where
  parameter_name : String
  received_value : BalsaValue
  received_type : BalsaType
  expected_type : BalsaType
  deriving Repr, DecidableEq

/-- `BalsaRenderError`. -/
inductive BalsaRenderError where
  | MissingParameter (e : MissingParameter)
  | InvalidParameterType (e : InvalidParameterType)
  deriving Repr, DecidableEq

/-- `BalsaError`. -/
inductive BalsaError where
  | CompileError (e : BalsaCompileError)
  | RenderError (e : BalsaRenderError)
  deriving Repr, DecidableEq

/-- `BalsaError::new_compile_error`. -/
def BalsaError.new_compile_error (error : BalsaCompileError) : BalsaError :=
  .CompileError error

/-- `BalsaError::invalid_type_expression`. -/
def BalsaError.invalid_type_expression (pos : Nat) (expression : BalsaExpression) :
    BalsaError :=
  .new_compile_error (.InvalidTypeExpression ⟨pos, ⟨expression⟩⟩)

/-- `BalsaError::invalid_expression`. -/
def BalsaError.invalid_expression (pos : Nat) (expression : BalsaExpression) :
    BalsaError :=
  .new_compile_error (.InvalidExpression ⟨pos, ⟨expression⟩⟩)

/-- `BalsaError::invalid_identifier_in_parameter_block`. -/
def BalsaError.invalid_identifier_in_parameter_block (pos : Nat)
    (expression : BalsaExpression) : BalsaError :=
  .new_compile_error (.InvalidIdentifierForParameterBlock ⟨pos, ⟨expression⟩⟩)

/-- `BalsaError::invalid_identifier_in_declaration_block`. -/
def BalsaError.invalid_identifier_in_declaration_block (pos : Nat)
    (expression : BalsaExpression) : BalsaError :=
  .new_compile_error (.InvalidIdentifierForDeclarationBlock ⟨pos, ⟨expression⟩⟩)

/-- `BalsaError::invalid_parameter`. -/
def BalsaError.invalid_parameter (pos : Nat) (parameter_name : String) : BalsaError :=
  .new_compile_error (.InvalidParameter ⟨pos, ⟨parameter_name⟩⟩)

/-- `BalsaError::missing_parameter`. -/
def BalsaError.missing_parameter (parameter_name : String) : BalsaError :=
  .RenderError (.MissingParameter ⟨parameter_name⟩)

/-- `BalsaError::invalid_parameter_type`. -/
def BalsaError.invalid_parameter_type (parameter_name : String)
    (received_value : BalsaValue) (received_type expected_type : BalsaType) :
    BalsaError :=
  .RenderError (.InvalidParameterType
    ⟨parameter_name, received_value, received_type, expected_type⟩)

/-! ## Colour validator (`validators.rs`)

`is_valid_color` runs `CSS_COLOR_REGEX` (anchored at the start, every
alternative ending in `$`, so it is a full-string match of one alternative):
a lowercase hex code of 3, 4, 6 or 8 digits, an `rgb`/`hsl`(`a`) functional
form, or one of the listed CSS colour names. -/

/-- A lowercase hexadecimal digit, `[0-9a-f]`. -/
def isHexLower (c : Char) : Bool := c.isDigit || ('a' ≤ c && c ≤ 'f')

/-- An ASCII character matched by the regex class `\s`. -/
def isSpaceCh (c : Char) : Bool :=
  c = ' ' || c = '\t' || c = '\n' || c = '\x0b' || c = '\x0c' || c = '\r'

/-- A character matched by the regex class `[,\s]`. -/
def isSepCh (c : Char) : Bool := c = ',' || isSpaceCh c

/-- One repetition `-?\d+%?[,\s]+` of the functional colour form; returns the
rest of the input on success. -/
def matchNumSep (l : List Char) : Option (List Char) :=
  let l1 := match l with | '-' :: t => t | _ => l
  let ds := l1.takeWhile Char.isDigit
  if ds.isEmpty then none
  else
    let l2 := l1.drop ds.length
    let l3 := match l2 with | '%' :: t => t | _ => l2
    let seps := l3.takeWhile isSepCh
    if seps.isEmpty then none else some (l3.drop seps.length)

/-- The tail `\s*[\d\.]+%?\)$` of the functional colour form. -/
def matchFinalNum (l : List Char) : Bool :=
  let l1 := l.dropWhile isSpaceCh
  let ds := l1.takeWhile (fun c => c.isDigit || c = '.')
  if ds.isEmpty then false
  else
    let l2 := l1.drop ds.length
    let l3 := match l2 with | '%' :: t => t | _ => l2
    l3 = [')']

/-- The body `(-?\d+%?[,\s]+){2,3}\s*[\d\.]+%?\)$` after `rgb(`/`hsl(`:
two repetitions, then either the final number or one more repetition and the
final number (the only backtracking point of the regex). -/
def rgbHslBody (l : List Char) : Bool :=
  match matchNumSep l with
  | none => false
  | some l1 =>
      match matchNumSep l1 with
      | none => false
      | some l2 =>
          matchFinalNum l2 ||
            (match matchNumSep l2 with
             | none => false
             | some l3 => matchFinalNum l3)

/-- The colour names enumerated by `CSS_COLOR_REGEX`, in order. -/
def CSS_COLOR_NAMES : List String :=
  ["black", "silver", "gray", "whitesmoke", "maroon", "red", "purple",
   "fuchsia", "green", "lime", "olivedrab", "yellow", "navy", "blue", "teal",
   "aquamarine", "orange", "aliceblue", "antiquewhite", "aqua", "azure",
   "beige", "bisque", "blanchedalmond", "blueviolet", "brown", "burlywood",
   "cadetblue", "chartreuse", "chocolate", "coral", "cornflowerblue",
   "cornsilk", "crimson", "currentcolor", "darkblue", "darkcyan",
   "darkgoldenrod", "darkgray", "darkgreen", "darkgrey", "darkkhaki",
   "darkmagenta", "darkolivegreen", "darkorange", "darkorchid", "darkred",
   "darksalmon", "darkseagreen", "darkslateblue", "darkslategray",
   "darkslategrey", "darkturquoise", "darkviolet", "deeppink", "deepskyblue",
   "dimgray", "dimgrey", "dodgerblue", "firebrick", "floralwhite",
   "forestgreen", "gainsboro", "ghostwhite", "goldenrod", "gold",
   "greenyellow", "grey", "honeydew", "hotpink", "indianred", "indigo",
   "ivory", "khaki", "lavenderblush", "lavender", "lawngreen", "lemonchiffon",
   "lightblue", "lightcoral", "lightcyan", "lightgoldenrodyellow",
   "lightgray", "lightgreen", "lightgrey", "lightpink", "lightsalmon",
   "lightseagreen", "lightskyblue", "lightslategray", "lightslategrey",
   "lightsteelblue", "lightyellow", "limegreen", "linen", "mediumaquamarine",
   "mediumblue", "mediumorchid", "mediumpurple", "mediumseagreen",
   "mediumslateblue", "mediumspringgreen", "mediumturquoise",
   "mediumvioletred", "midnightblue", "mintcream", "mistyrose", "moccasin",
   "navajowhite", "oldlace", "olive", "orangered", "orchid", "palegoldenrod",
   "palegreen", "paleturquoise", "palevioletred", "papayawhip", "peachpuff",
   "peru", "pink", "plum", "powderblue", "rosybrown", "royalblue",
   "saddlebrown", "salmon", "sandybrown", "seagreen", "seashell", "sienna",
   "skyblue", "slateblue", "slategray", "slategrey", "snow", "springgreen",
   "steelblue", "tan", "thistle", "tomato", "transparent", "turquoise",
   "violet", "wheat", "white", "yellowgreen", "rebeccapurple"]

/-- `is_valid_color` from `validators.rs`. -/
def is_valid_color (color : String) : Bool :=
  let l := color.toList
  (match l with
   | '#' :: rest =>
       rest.all isHexLower &&
         (rest.length = 3 || rest.length = 4 || rest.length = 6 || rest.length = 8)
   | _ => false)
  ||
  (match l with
   | 'r' :: 'g' :: 'b' :: t =>
       (match t with
        | 'a' :: '(' :: body => rgbHslBody body
        | '(' :: body => rgbHslBody body
        | _ => false)
   | 'h' :: 's' :: 'l' :: t =>
       (match t with
        | 'a' :: '(' :: body => rgbHslBody body
        | '(' :: body => rgbHslBody body
        | _ => false)
   | _ => false)
  || CSS_COLOR_NAMES.contains color

/-! ## Type casts (`balsa_type_cast.rs`) -/

/-- `i32::try_from` on an `i64` value. -/
def i32TryFrom (n : Int) : Option Int :=
  if -2147483648 ≤ n ∧ n ≤ 2147483647 then some n else none

/-- `BalsaValue::try_cast`: the directional cast table. -/
def BalsaValue.try_cast (v : BalsaValue) (target_type : BalsaType) :
    Except InvalidTypeCast BalsaValue :=
  let err : Except InvalidTypeCast BalsaValue :=
    .error ⟨v, v.get_type, target_type⟩
  match v with
  | .String value =>
      match target_type with
      | .String => .ok v
      | .Color => if is_valid_color value then .ok (.Color value) else err
      | _ => err
  | .Color value =>
      match target_type with
      | .String => .ok (.String value)
      | .Color => .ok v
      | _ => err
  | .Integer value =>
      match target_type with
      | .Integer => .ok v
      | .Float =>
          match i32TryFrom value with
          | some rounded => .ok (.Float rounded)
          | none => err
      | _ => err
  | .Float _ =>
      match target_type with
      | .Float => .ok v
      | _ => err

/-! ## Compiler (`balsa_compiler.rs`) -/

/-- Modelled from the spec: the `parameter_names` module declared in `lib.rs`
is missing from the sources; the spec fixes its only constant, the sole
recognized option key `defaultValue`. -/
def DEFAULT_VALUE : String := "defaultValue"

/-- `ParameterDescription`. -/
structure ParameterDescription where
  variable_name : String
  variable_type : BalsaType
  default_value : Option BalsaValue
  deriving Repr, DecidableEq

/-- `ReplaceWith`. -/
inductive ReplaceWith where
  | Parameter (p : ParameterDescription)
  | Nothing
  deriving Repr, DecidableEq

/-- `ReplacementInstruction` (`usize` spans). -/
structure ReplacementInstruction where
  start_pos : Nat
  end_pos : Nat
  replace_with : ReplaceWith
  deriving Repr, DecidableEq

/-- `Scope`: the global constant scope (the source field `variables` is
spelled `vars`; `variables` is a reserved Lean command). -/
structure Scope where
  vars : List (String × BalsaValue)
  deriving Repr, DecidableEq

/-- `CompiledTemplate`. -/
structure CompiledTemplate where
  global_scope : Scope
  replacements : List ReplacementInstruction
  deriving Repr, DecidableEq

/-- `Compiler`: the state threaded through `compile_from_tokens`. -/
structure Compiler where
  global_scope : Scope
  replacements : List ReplacementInstruction
  deriving Repr, DecidableEq

/-- The `for (key, value) in map` loop of `parse_param_block`: recognize
`defaultValue` entries (value must be a castable literal), reject any other
key with `InvalidParameter`. -/
def paramOptionsFold (blockStart : Nat) (type_ : BalsaType) :
    Option BalsaValue → OptionsMap → Except BalsaError (Option BalsaValue)
  | acc, [] => .ok acc
  | _acc, (key, value) :: rest =>
      if key = DEFAULT_VALUE then
        match value.as_value with
        | none => .error (BalsaError.invalid_expression blockStart value)
        | some v =>
            match v.try_cast type_ with
            | .error e =>
                .error (BalsaError.new_compile_error
                  (.InvalidTypeCast ⟨blockStart, e⟩))
            | .ok default_value =>
                paramOptionsFold blockStart type_ (some default_value) rest
      else .error (BalsaError.invalid_parameter blockStart key)

/-- `Compiler::parse_param_block`.  (The source's `block.start_pos as usize`
is modelled with `Int.toNat`; parsed blocks always carry non-negative
positions.) -/
def Compiler.parse_param_block (c : Compiler)
    (block : Block ParameterBlockIntermediate) : Except BalsaError Compiler :=
  match block.token.variable_name.as_identifier with
  | none =>
      .error (BalsaError.invalid_identifier_in_parameter_block
        block.start_pos.toNat block.token.variable_name)
  | some i =>
      match block.token.variable_type.as_type with
      | none =>
          .error (BalsaError.invalid_type_expression
            block.start_pos.toNat block.token.variable_type)
      | some type_ =>
          let defaults : Except BalsaError (Option BalsaValue) :=
            match block.token.options with
            | some map => paramOptionsFold block.start_pos.toNat type_ none map
            | none => .ok none
          match defaults with
          | .error e => .error e
          | .ok default_value =>
              .ok { c with
                replacements := c.replacements ++
                  [⟨block.start_pos.toNat, block.end_pos.toNat,
                    .Parameter ⟨i, type_, default_value⟩⟩] }

/-- The `for declaration in &block.token` loop of `parse_dec_block`. -/
def decBlockFold (blockStart : Nat) :
    Scope → List Declaration → Except BalsaError Scope
  | sc, [] => .ok sc
  | sc, d :: rest =>
      match d.identifier.as_identifier with
      | none =>
          .error (BalsaError.invalid_identifier_in_declaration_block
            blockStart d.identifier)
      | some identifier =>
          match d.variable_type.as_type with
          | none =>
              .error (BalsaError.invalid_type_expression blockStart d.variable_type)
          | some type_ =>
              match d.value.as_value with
              | none => .error (BalsaError.invalid_expression blockStart d.value)
              | some v =>
                  match v.try_cast type_ with
                  | .error e =>
                      .error (BalsaError.new_compile_error
                        (.InvalidTypeCast ⟨blockStart, e⟩))
                  | .ok value =>
                      decBlockFold blockStart
                        ⟨mapInsert sc.vars identifier value⟩ rest

/-- `Compiler::parse_dec_block`. -/
def Compiler.parse_dec_block (c : Compiler) (block : Block (List Declaration)) :
    Except BalsaError Compiler :=
  match decBlockFold block.start_pos.toNat c.global_scope block.token with
  | .error e => .error e
  | .ok sc => .ok { c with global_scope := sc }

/-- The `for token in tokens` loop of `compile_from_tokens`. -/
def compileTokens : Compiler → List BalsaToken → Except BalsaError Compiler
  | c, [] => .ok c
  | c, .ParameterBlock p :: rest =>
      match c.parse_param_block p with
      | .error e => .error e
      | .ok c' => compileTokens c' rest
  | c, .DeclarationBlock d :: rest =>
      match c.parse_dec_block d with
      | .error e => .error e
      | .ok c' => compileTokens c' rest

/-- `Compiler::compile_from_tokens`. -/
def Compiler.compile_from_tokens (tokens : List BalsaToken) :
    Except BalsaError CompiledTemplate :=
  match compileTokens ⟨⟨[]⟩, []⟩ tokens with
  | .error e => .error e
  | .ok c => .ok ⟨c.global_scope, c.replacements⟩

/-- `BalsaParser::parse`: run the document scanner, discarding the remainder;
any parse failure becomes the generic `TemplateParseFail`. -/
def BalsaParser.parse (input : String) : Except BalsaError (List BalsaToken) :=
  match balsaP 0 input.toList with
  | .ok (_, t) => .ok t.token
  | .error _ =>
      .error (.CompileError (.TemplateParseFail ⟨0, .Generic⟩))

/-! ## Runtime parameters (`parameters_builder.rs`) -/

/-- `BalsaParameters`: the runtime parameter map. -/
structure BalsaParameters where
  parameters : List (String × BalsaValue)
  deriving Repr, DecidableEq

/-- `BalsaParameters::new`. -/
def BalsaParameters.new : BalsaParameters := ⟨[]⟩

/-- `BalsaParameters::insert`: clone the map, insert, return the new map. -/
def BalsaParameters.insert (p : BalsaParameters) (key : String)
    (value : BalsaValue) : BalsaParameters :=
  ⟨mapInsert p.parameters key value⟩

/-- `BalsaParameters::string`. -/
def BalsaParameters.string (p : BalsaParameters) (key value : String) :
    BalsaParameters :=
  p.insert key (.String value)

/-- `BalsaParameters::color`. -/
def BalsaParameters.color (p : BalsaParameters) (key value : String) :
    BalsaParameters :=
  p.insert key (.Color value)

/-- `BalsaParameters::int`. -/
def BalsaParameters.int (p : BalsaParameters) (key : String) (value : Int) :
    BalsaParameters :=
  p.insert key (.Integer value)

/-- `BalsaParameters::float`. -/
def BalsaParameters.float (p : BalsaParameters) (key : String) (value : Int) :
    BalsaParameters :=
  p.insert key (.Float value)

/-- `BalsaParameters::get`. -/
def BalsaParameters.get (p : BalsaParameters) (key : String) : Option BalsaValue :=
  mapGet p.parameters key

/-! ## Renderer (`balsa_renderer.rs`) -/

/-- `i64` `Display`. -/
def i64ToString (i : Int) : String := toString i

/-- `f64` `Display` at the integral doubles of this embedding (Rust prints an
integral double without a decimal point). -/
def f64ToString (f : Int) : String := toString f

/-- `RenderContext`: output accumulator, cursor, remaining character iterator
and the (read-only) runtime parameters. -/
structure RenderContext where
  output : String
  chars_written : Nat
  chars : List Char
  parameters : BalsaParameters
  deriving Repr, DecidableEq

/-- `RenderContext::new`. -/
def RenderContext.new (raw_template : String) (parameters : BalsaParameters) :
    RenderContext :=
  ⟨"", 0, raw_template.toList, parameters⟩

/-- `RenderContext::prepend_missing_chars`: copy the characters before the
instruction verbatim, then drop the instruction's own span. -/
def RenderContext.prepend_missing_chars (ctx : RenderContext)
    (replacement : ReplacementInstruction) : RenderContext :=
  let ctx1 :=
    if ctx.chars_written < replacement.start_pos then
      let n := replacement.start_pos - ctx.chars_written
      { ctx with
        output := ctx.output ++ String.mk (ctx.chars.take n)
        chars := ctx.chars.drop n
        chars_written := ctx.chars_written + n }
    else ctx
  if ctx1.chars_written < replacement.end_pos then
    let n := replacement.end_pos - ctx1.chars_written
    { ctx1 with
      chars := ctx1.chars.drop n
      chars_written := ctx1.chars_written + n }
  else ctx1

/-- `RenderContext::next`: process one `ReplacementInstruction`. -/
def RenderContext.next (ctx : RenderContext)
    (replacement : ReplacementInstruction) : Except BalsaError RenderContext :=
  let ctx := ctx.prepend_missing_chars replacement
  match replacement.replace_with with
  | .Parameter p =>
      match (ctx.parameters.get p.variable_name).orElse (fun _ => p.default_value) with
      | none => .error (BalsaError.missing_parameter p.variable_name)
      | some v =>
          match v.try_cast p.variable_type with
          | .error _ =>
              .error (BalsaError.invalid_parameter_type
                p.variable_name v v.get_type p.variable_type)
          | .ok v' =>
              let s := match v' with
                | .String s => s
                | .Color s => s
                | .Integer i => i64ToString i
                | .Float f => f64ToString f
              .ok { ctx with output := ctx.output ++ s }
  | .Nothing => .ok ctx

/-- `RenderContext::output`: flush the remaining characters. -/
def RenderContext.flush (ctx : RenderContext) : String :=
  ctx.output ++ String.mk ctx.chars

/-- The `for replacement in replacements` loop of `render_with_parameters`. -/
def renderSteps : RenderContext → List ReplacementInstruction →
    Except BalsaError RenderContext
  | ctx, [] => .ok ctx
  | ctx, r :: rest =>
      match ctx.next r with
      | .error e => .error e
      | .ok ctx' => renderSteps ctx' rest

/-- `Renderer::render_with_parameters`. -/
def Renderer.render_with_parameters (raw_template : String)
    (compiled_template : CompiledTemplate) (parameters : BalsaParameters) :
    Except BalsaError String :=
  match renderSteps (RenderContext.new raw_template parameters)
      compiled_template.replacements with
  | .error e => .error e
  | .ok ctx => .ok ctx.flush

/-! ## Top-level wiring (`lib.rs`) -/

/-- `BalsaBuilder::build` on an in-memory string source: parse, then compile. -/
def BalsaBuilder.build (raw_template : String) :
    Except BalsaError CompiledTemplate :=
  match BalsaParser.parse raw_template with
  | .error e => .error e
  | .ok tokens => Compiler.compile_from_tokens tokens

/-- `Template::render_html_string` after `build`: the end-to-end pipeline. -/
def buildAndRender (raw_template : String) (params : BalsaParameters) :
    Except BalsaError String :=
  match BalsaBuilder.build raw_template with
  | .error e => .error e
  | .ok tpl => Renderer.render_with_parameters raw_template tpl params

/-! ## Spec-side characterizations used by the claims -/

/-- Spec-side restatement of §4.4's cast table, written from the spec's words
(to be compared against `BalsaValue.try_cast`). -/
def castTableSpec (v : BalsaValue) (t : BalsaType) :
    Except InvalidTypeCast BalsaValue :=
  match v, t with
  | .String s, .String => .ok (.String s)
  | .String s, .Color =>
      if is_valid_color s then .ok (.Color s)
      else .error ⟨.String s, .String, .Color⟩
  | .Color c, .String => .ok (.String c)
  | .Color c, .Color => .ok (.Color c)
  | .Integer n, .Integer => .ok (.Integer n)
  | .Integer n, .Float =>
      if -2147483648 ≤ n ∧ n ≤ 2147483647 then .ok (.Float n)
      else .error ⟨.Integer n, .Integer, .Float⟩
  | .Float f, .Float => .ok (.Float f)
  | v, t => .error ⟨v, v.get_type, t⟩

/-- The start position recorded in a token's block. -/
def BalsaToken.startPos : BalsaToken → Int
  | .DeclarationBlock b => b.start_pos
  | .ParameterBlock b => b.start_pos

/-- The end position recorded in a token's block. -/
def BalsaToken.endPos : BalsaToken → Int
  | .DeclarationBlock b => b.end_pos
  | .ParameterBlock b => b.end_pos

/-- All declarations of a token list, in token order. -/
def declarationsOf (tokens : List BalsaToken) : List Declaration :=
  tokens.flatMap fun t =>
    match t with
    | .DeclarationBlock b => b.token
    | .ParameterBlock _ => []

/-- Evaluate one declaration to the scope entry it contributes: identifier,
declared type and literal value must have the right variants and the literal
must cast to the declared type. -/
def declEval (d : Declaration) : Option (String × BalsaValue) :=
  d.identifier.as_identifier.bind fun i =>
    d.variable_type.as_type.bind fun ty =>
      d.value.as_value.bind fun v =>
        match v.try_cast ty with
        | .ok value => some (i, value)
        | .error _ => none

/-- Fold the declarations into a scope map by repeated (overwriting)
insertion; `none` when some declaration is invalid. -/
def scopeSpecAux : List (String × BalsaValue) → List Declaration →
    Option (List (String × BalsaValue))
  | m, [] => some m
  | m, d :: rest => (declEval d).bind fun iv => scopeSpecAux (mapInsert m iv.1 iv.2) rest

/-- Evaluate a parameter block's options map to the default value it
describes: only `defaultValue` keys, each a literal castable to the block's
type, the last one winning. -/
def defaultOfOptions (ty : BalsaType) :
    Option BalsaValue → OptionsMap → Option (Option BalsaValue)
  | acc, [] => some acc
  | _, (key, value) :: rest =>
      if key = DEFAULT_VALUE then
        value.as_value.bind fun v =>
          match v.try_cast ty with
          | .ok dv => defaultOfOptions ty (some dv) rest
          | .error _ => none
      else none

/-- The replacement instruction a token contributes: parameter blocks yield
their instruction, declaration blocks yield nothing. -/
def instrOf (t : BalsaToken) : Option ReplacementInstruction :=
  match t with
  | .DeclarationBlock _ => none
  | .ParameterBlock b =>
      b.token.variable_name.as_identifier.bind fun i =>
        b.token.variable_type.as_type.bind fun ty =>
          (match b.token.options with
           | some map => defaultOfOptions ty none map
           | none => some none).map fun dv =>
            ⟨b.start_pos.toNat, b.end_pos.toNat, .Parameter ⟨i, ty, dv⟩⟩

/-- A parameter block carrying an options key other than `defaultValue`. -/
def hasUnknownOptionKey (t : BalsaToken) : Bool :=
  match t with
  | .ParameterBlock b =>
      match b.token.options with
      | some map => map.any fun p => p.1 ≠ DEFAULT_VALUE
      | none => false
  | .DeclarationBlock _ => false

/-- Tokens lie in `[lo, hi]` with positive, non-overlapping, left-to-right
spans. -/
def TokensOrdered (lo : Int) : List BalsaToken → Int → Prop
  | [], hi => lo ≤ hi
  | t :: ts, hi =>
      lo ≤ t.startPos ∧ t.startPos < t.endPos ∧ TokensOrdered t.endPos ts hi

/-- A parser that reports its input position as the produced token's start
and never moves the end position backwards (every parser of the engine does). -/
def Mono {α : Type} (p : ParserFn α) : Prop :=
  ∀ pos input rem out, p pos input = .ok (rem, out) →
    out.start_pos = pos ∧ pos ≤ out.end_pos

/-- A parser whose successes strictly advance the end position. -/
def Advances {α : Type} (p : ParserFn α) : Prop :=
  ∀ pos input rem out, p pos input = .ok (rem, out) → pos < out.end_pos

/-! ## Map lemmas -/

theorem mapGet_replace_ne {α : Type} (m : List (String × α)) (k k' : String) (v : α)
    (h : k' ≠ k) :
    mapGet (m.map (fun p => if p.1 = k then (k, v) else p)) k' = mapGet m k' := by
  induction m with
  | nil => rfl
  | cons a t ih =>
      rw [List.map_cons]
      by_cases hak : a.1 = k
      · rw [if_pos hak]
        have h1 : ¬((k : String) = k') := fun hh => h hh.symm
        have h2 : ¬(a.1 = k') := by rw [hak]; exact h1
        simp [mapGet, h1, h2, ih]
      · rw [if_neg hak]
        by_cases hak' : a.1 = k'
        · simp only [mapGet, hak', if_pos]
        · simp only [mapGet, hak', if_neg, ih]

theorem mapGet_replace_eq {α : Type} (m : List (String × α)) (k : String) (v : α)
    (h : mapHasKey m k = true) :
    mapGet (m.map (fun p => if p.1 = k then (k, v) else p)) k = some v := by
  induction m with
  | nil => simp [mapHasKey] at h
  | cons a t ih =>
      rw [List.map_cons]
      by_cases hak : a.1 = k
      · rw [if_pos hak]
        simp [mapGet]
      · rw [if_neg hak]
        rw [mapHasKey] at h
        have hax : (decide (a.1 = k) : Bool) = false := by
          simp only [decide_eq_false_iff_not]; exact hak
        rw [hax, Bool.false_or] at h
        simp [mapGet, hak, ih h]

theorem mapGet_none_of_hasKey_false {α : Type} (m : List (String × α)) (k : String)
    (h : mapHasKey m k = false) :
    mapGet m k = none := by
  induction m with
  | nil => rfl
  | cons a t ih =>
      rw [mapHasKey, Bool.or_eq_false_iff] at h
      have hak : ¬(a.1 = k) := by
        have := h.1
        simp only [decide_eq_false_iff_not] at this
        exact this
      simp [mapGet, hak, ih h.2]

theorem mapGet_append_single {α : Type} (m : List (String × α)) (k k' : String)
    (v : α) (h : mapHasKey m k = false) :
    mapGet (m ++ [(k, v)]) k' = if k' = k then some v else mapGet m k' := by
  induction m with
  | nil =>
      simp only [List.nil_append, mapGet]
      by_cases hk : k' = k
      · rw [if_pos hk, if_pos hk.symm]
      · rw [if_neg hk, if_neg (fun hh => hk hh.symm)]
  | cons a t ih =>
      rw [mapHasKey, Bool.or_eq_false_iff] at h
      have hak : ¬(a.1 = k) := by
        have := h.1
        simp only [decide_eq_false_iff_not] at this
        exact this
      rw [List.cons_append]
      by_cases haq : a.1 = k'
      · have hk : ¬(k' = k) := fun hh => hak (by rw [haq, hh])
        simp only [mapGet, haq, if_pos, if_neg hk]
      · simp [mapGet, haq, ih h.2]

theorem mapGet_mapInsert {α : Type} (m : List (String × α)) (k k' : String) (v : α) :
    mapGet (mapInsert m k v) k' = if k' = k then some v else mapGet m k' := by
  unfold mapInsert
  by_cases hany : mapHasKey m k = true
  · rw [if_pos hany]
    by_cases hk : k' = k
    · subst hk
      rw [if_pos rfl, mapGet_replace_eq m k' v hany]
    · rw [if_neg hk, mapGet_replace_ne m k k' v hk]
  · have hany' : mapHasKey m k = false := by simpa using hany
    rw [hany']
    simp only [Bool.false_eq_true, if_false]
    exact mapGet_append_single m k k' v hany'

theorem mapGet_mapInsert_self {α : Type} (m : List (String × α)) (k : String) (v : α) :
    mapGet (mapInsert m k v) k = some v := by
  rw [mapGet_mapInsert]
  simp

/-! ## Claim theorems -/

/-- C10: the `BalsaParameters` builder is persistent: `insert` (and the
`string`/`color`/`int`/`float` wrappers over it) returns a new map equal to
the receiver's mapping extended/overwritten with the new binding, leaving the
receiver's own mapping untouched. -/
theorem parameters_builder_persistent (p : BalsaParameters) (k k' : String)
    (v : BalsaValue) (s : String) (n : Int) :
    ((p.insert k v).get k' = if k' = k then some v else p.get k') ∧
    p.string k s = p.insert k (.String s) ∧
    p.color k s = p.insert k (.Color s) ∧
    p.int k n = p.insert k (.Integer n) ∧
    p.float k n = p.insert k (.Float n) :=
  ⟨mapGet_mapInsert p.parameters k k' v, rfl, rfl, rfl, rfl⟩

/-- C5: `try_cast` agrees with the spec's directional cast table on every
value/target pair, and in particular `Integer(80000) → Float` succeeds while
`Integer(3000000000) → Float` fails. -/
theorem try_cast_follows_table (v : BalsaValue) (t : BalsaType) :
    v.try_cast t = castTableSpec v t ∧
    (BalsaValue.Integer 80000).try_cast .Float = .ok (.Float 80000) ∧
    (BalsaValue.Integer 3000000000).try_cast .Float =
      .error ⟨.Integer 3000000000, .Integer, .Float⟩ := by
  refine ⟨?_, by rfl, by rfl⟩
  cases v <;> cases t <;>
    first
      | rfl
      | (rename_i n
         simp only [BalsaValue.try_cast, castTableSpec, i32TryFrom,
           BalsaValue.get_type]
         by_cases hC : (-2147483648 : Int) ≤ n ∧ n ≤ 2147483647
         · rw [if_pos hC, if_pos hC]
         · rw [if_neg hC, if_neg hC])

/-- C1 counterexample: on the 20-digit input the left alternative of
`balsa_expr_p` (`balsa_value_p`) fails with `MalformedInput` (the `i64`
overflows), yet `or` still runs the right alternative, which succeeds as an
`Identifier` — so a `MalformedInput` from the left branch is *not* returned
immediately and the right branch *is* tried. -/
theorem or_after_malformed_cex :
    fmap balsaValueP (fun v _ => BalsaExpression.Value v) 0
        ("99999999999999999999".toList) = .error (.malformedInput 0) ∧
    orP (fmap balsaValueP (fun v _ => BalsaExpression.Value v))
        (orP (fmap balsaTypeP (fun t _ => BalsaExpression.Type t))
          (fmap variableNameP (fun v _ => BalsaExpression.Identifier v)))
        0 ("99999999999999999999".toList) =
      .ok ([], ⟨0, 20, BalsaExpression.Identifier "99999999999999999999"⟩) :=
  ⟨by decide, by decide⟩

/-- C1 (amended): `or(left, right)` runs `right` at the same position on the
same input whenever `left` fails — with `NotMatched` *or* `MalformedInput`
(the source discards the error kind); no failure of `left` is returned
without trying `right`. -/
theorem or_tries_right_on_any_failure {α : Type} (l r : ParserFn α) (pos : Int)
    (input : List Char) (e : ParseError) (h : l pos input = .error e) :
    orP l r pos input = r pos input := by
  unfold orP
  rw [h]

/-- C1 witness: the amended theorem applied at the overflowing-integer input,
whose left branch fails with `MalformedInput`. -/
theorem or_tries_right_on_any_failure_witness :
    balsaValueP 0 ("99999999999999999999".toList) = .error (.malformedInput 0) ∧
    orP balsaValueP intLiteralP 0 ("99999999999999999999".toList) =
      intLiteralP 0 ("99999999999999999999".toList) :=
  ⟨by decide,
   or_tries_right_on_any_failure balsaValueP intLiteralP 0
     ("99999999999999999999".toList) (.malformedInput 0) (by decide)⟩

/-- C2: the code diverges from the claim — the template
`{{ city : string, defaultValue: "Unknown" }}` *compiles* to an **empty**
instruction list (the document scanner's `take_until_char_parser('{')`
requires at least one literal character, so a template that begins with a
block parses to zero tokens), and rendering it with no `city` parameter
succeeds returning the raw template text, not `Unknown`. -/
theorem default_fallback_template_eval :
    BalsaBuilder.build "\x7b\x7b city : string, defaultValue: \"Unknown\" \x7d\x7d" =
      .ok ⟨⟨[]⟩, []⟩ ∧
    buildAndRender "\x7b\x7b city : string, defaultValue: \"Unknown\" \x7d\x7d"
        BalsaParameters.new =
      .ok "\x7b\x7b city : string, defaultValue: \"Unknown\" \x7d\x7d" ∧
    buildAndRender "\x7b\x7b city : string, defaultValue: \"Unknown\" \x7d\x7d"
        BalsaParameters.new ≠ .ok "Unknown" :=
  ⟨by decide, by decide, by decide⟩

/-- C3: the code diverges from the claim — `{{ x : int }}` compiles to an
empty instruction list (same scanner defect as C2), and rendering with empty
parameters *succeeds* with the raw text instead of failing with
`MissingParameter(x)`. -/
theorem missing_parameter_template_eval :
    BalsaBuilder.build "\x7b\x7b x : int \x7d\x7d" = .ok ⟨⟨[]⟩, []⟩ ∧
    buildAndRender "\x7b\x7b x : int \x7d\x7d" BalsaParameters.new =
      .ok "\x7b\x7b x : int \x7d\x7d" ∧
    buildAndRender "\x7b\x7b x : int \x7d\x7d" BalsaParameters.new ≠
      .error (BalsaError.missing_parameter "x") :=
  ⟨by decide, by decide, by decide⟩

/-- C4: `Hello {{ name : string }}!` compiles to a single parameter
instruction spanning `[6, 25)`, and rendering with `name = "World"` yields
exactly `Hello World!`. -/
theorem literal_passthrough_template_eval :
    BalsaBuilder.build "Hello \x7b\x7b name : string \x7d\x7d!" =
      .ok ⟨⟨[]⟩, [⟨6, 25, .Parameter ⟨"name", .String, none⟩⟩]⟩ ∧
    buildAndRender "Hello \x7b\x7b name : string \x7d\x7d!"
        (BalsaParameters.new.string "name" "World") = .ok "Hello World!" :=
  ⟨by decide, by decide⟩

/-! ## Renderer frame lemmas -/

theorem prepend_missing_chars_parameters (ctx : RenderContext)
    (r : ReplacementInstruction) :
    (ctx.prepend_missing_chars r).parameters = ctx.parameters := by
  unfold RenderContext.prepend_missing_chars
  by_cases hA : ctx.chars_written < r.start_pos <;>
    simp only [hA, if_true, if_false] <;> split <;> rfl

theorem next_parameters (ctx : RenderContext) (r : ReplacementInstruction)
    (ctx' : RenderContext) (h : ctx.next r = .ok ctx') :
    ctx'.parameters = ctx.parameters := by
  rw [← prepend_missing_chars_parameters ctx r]
  unfold RenderContext.next at h
  dsimp only at h
  split at h
  · split at h
    · exact absurd h (by simp)
    · split at h
      · exact absurd h (by simp)
      · cases h
        rfl
  · cases h
    rfl

theorem renderSteps_parameters (rs : List ReplacementInstruction) :
    ∀ ctx ctx', renderSteps ctx rs = .ok ctx' → ctx'.parameters = ctx.parameters := by
  induction rs with
  | nil =>
      intro ctx ctx' h
      cases h
      rfl
  | cons r rest ih =>
      intro ctx ctx' h
      unfold renderSteps at h
      split at h
      · exact absurd h (by simp)
      · rename_i c1 hc1
        rw [ih c1 ctx' h, next_parameters ctx r c1 hc1]

/-- C9: rendering is deterministic — the embedded
`render_with_parameters` is a pure function, so two calls on identical
inputs are literally equal — and it never mutates the runtime parameter map:
the parameters threaded through the render context are unchanged by every
instruction replay (the raw text and `CompiledTemplate` are read-only inputs
of the embedding, mirroring the `&self`/`&BalsaParameters` borrows of the
source). -/
theorem render_pure_and_frame (raw : String) (tpl : CompiledTemplate)
    (params : BalsaParameters) (ctx ctx' : RenderContext)
    (h : renderSteps ctx tpl.replacements = .ok ctx') :
    Renderer.render_with_parameters raw tpl params =
      Renderer.render_with_parameters raw tpl params ∧
    ctx'.parameters = ctx.parameters :=
  ⟨rfl, renderSteps_parameters tpl.replacements ctx ctx' h⟩

/-- C9 witness: the frame theorem applied to a concrete render that consumes
a two-character template and substitutes one parameter. -/
theorem render_pure_and_frame_witness :
    renderSteps (RenderContext.new "ab" (BalsaParameters.new.string "k" "v"))
        (CompiledTemplate.mk ⟨[]⟩
          [⟨0, 2, .Parameter ⟨"k", .String, none⟩⟩]).replacements =
      .ok ⟨"v", 2, [], BalsaParameters.new.string "k" "v"⟩ ∧
    (RenderContext.mk "v" 2 [] (BalsaParameters.new.string "k" "v")).parameters =
      (RenderContext.new "ab" (BalsaParameters.new.string "k" "v")).parameters :=
  ⟨by decide,
   (render_pure_and_frame "ab"
      (CompiledTemplate.mk ⟨[]⟩ [⟨0, 2, .Parameter ⟨"k", .String, none⟩⟩])
      (BalsaParameters.new.string "k" "v")
      (RenderContext.new "ab" (BalsaParameters.new.string "k" "v"))
      (RenderContext.mk "v" 2 [] (BalsaParameters.new.string "k" "v"))
      (by decide)).2⟩

/-! ## Compiler characterization lemmas -/

theorem paramOptionsFold_ok (bs : Nat) (ty : BalsaType) (map : OptionsMap) :
    ∀ acc dv, paramOptionsFold bs ty acc map = .ok dv →
      defaultOfOptions ty acc map = some dv := by
  induction map with
  | nil =>
      intro acc dv h
      cases h
      rfl
  | cons kv rest ih =>
      intro acc dv h
      obtain ⟨key, value⟩ := kv
      simp only [paramOptionsFold] at h
      simp only [defaultOfOptions]
      by_cases hk : key = DEFAULT_VALUE
      · simp only [if_pos hk] at h ⊢
        cases hval : value.as_value with
        | none => simp [hval] at h
        | some v =>
            simp only [hval, Option.some_bind] at h ⊢
            cases hcast : v.try_cast ty with
            | error e => simp [hcast] at h
            | ok dv' =>
                simp only [hcast] at h ⊢
                exact ih _ _ h
      · simp [if_neg hk] at h

theorem parse_param_block_ok (c : Compiler) (b : Block ParameterBlockIntermediate)
    (c' : Compiler) (h : c.parse_param_block b = .ok c') :
    c'.global_scope = c.global_scope ∧
    ∃ instr, instrOf (.ParameterBlock b) = some instr ∧
      c'.replacements = c.replacements ++ [instr] := by
  simp only [Compiler.parse_param_block] at h
  cases hid : b.token.variable_name.as_identifier with
  | none => simp [hid] at h
  | some i =>
      simp only [hid] at h
      cases hty : b.token.variable_type.as_type with
      | none => simp [hty] at h
      | some ty =>
          simp only [hty] at h
          cases hopt : b.token.options with
          | none =>
              simp only [hopt] at h
              cases h
              refine ⟨rfl, ⟨_, ?_, rfl⟩⟩
              simp [instrOf, hid, hty, hopt]
          | some map =>
              simp only [hopt] at h
              cases hfold : paramOptionsFold b.start_pos.toNat ty none map with
              | error e => simp [hfold] at h
              | ok dv =>
                  simp only [hfold] at h
                  cases h
                  refine ⟨rfl, ⟨_, ?_, rfl⟩⟩
                  simp [instrOf, hid, hty, hopt,
                    paramOptionsFold_ok b.start_pos.toNat ty map none dv hfold]

theorem decBlockFold_ok (bs : Nat) (ds : List Declaration) :
    ∀ sc sc', decBlockFold bs sc ds = .ok sc' →
      scopeSpecAux sc.vars ds = some sc'.vars := by
  induction ds with
  | nil =>
      intro sc sc' h
      cases h
      rfl
  | cons d rest ih =>
      intro sc sc' h
      simp only [decBlockFold] at h
      simp only [scopeSpecAux]
      cases hid : d.identifier.as_identifier with
      | none => simp [hid] at h
      | some i =>
          simp only [hid] at h
          cases hty : d.variable_type.as_type with
          | none => simp [hty] at h
          | some ty =>
              simp only [hty] at h
              cases hval : d.value.as_value with
              | none => simp [hval] at h
              | some v =>
                  simp only [hval] at h
                  cases hcast : v.try_cast ty with
                  | error e => simp [hcast] at h
                  | ok value =>
                      simp only [hcast] at h
                      have hde : declEval d = some (i, value) := by
                        simp [declEval, hid, hty, hval, hcast]
                      rw [hde, Option.some_bind]
                      exact ih _ _ h

theorem parse_dec_block_ok (c : Compiler) (b : Block (List Declaration))
    (c' : Compiler) (h : c.parse_dec_block b = .ok c') :
    c'.replacements = c.replacements ∧
    scopeSpecAux c.global_scope.vars b.token = some c'.global_scope.vars := by
  simp only [Compiler.parse_dec_block] at h
  cases hfold : decBlockFold b.start_pos.toNat c.global_scope b.token with
  | error e => simp [hfold] at h
  | ok sc =>
      simp only [hfold] at h
      cases h
      exact ⟨rfl, decBlockFold_ok _ _ _ _ hfold⟩

theorem scopeSpecAux_append (l1 l2 : List Declaration) :
    ∀ m, scopeSpecAux m (l1 ++ l2) =
      (scopeSpecAux m l1).bind fun m1 => scopeSpecAux m1 l2 := by
  induction l1 with
  | nil => intro m; rfl
  | cons d rest ih =>
      intro m
      rw [List.cons_append]
      simp only [scopeSpecAux]
      cases declEval d with
      | none => rfl
      | some iv =>
          simp only [Option.some_bind]
          exact ih _

theorem compileTokens_ok (tokens : List BalsaToken) :
    ∀ c c', compileTokens c tokens = .ok c' →
      scopeSpecAux c.global_scope.vars (declarationsOf tokens) =
        some c'.global_scope.vars ∧
      c'.replacements = c.replacements ++ tokens.filterMap instrOf := by
  induction tokens with
  | nil =>
      intro c c' h
      cases h
      exact ⟨rfl, by simp [declarationsOf]⟩
  | cons t rest ih =>
      intro c c' h
      cases t with
      | ParameterBlock p =>
          simp only [compileTokens] at h
          cases hp : c.parse_param_block p with
          | error e => simp [hp] at h
          | ok c1 =>
              simp only [hp] at h
              obtain ⟨hsc, instr, hinstr, hrepl⟩ := parse_param_block_ok c p c1 hp
              obtain ⟨ih1, ih2⟩ := ih c1 c' h
              constructor
              · rw [← hsc]
                simpa [declarationsOf] using ih1
              · rw [ih2, hrepl, List.filterMap_cons, hinstr, List.append_assoc]
                rfl
      | DeclarationBlock d =>
          simp only [compileTokens] at h
          cases hp : c.parse_dec_block d with
          | error e => simp [hp] at h
          | ok c1 =>
              simp only [hp] at h
              obtain ⟨hrepl, hsc⟩ := parse_dec_block_ok c d c1 hp
              obtain ⟨ih1, ih2⟩ := ih c1 c' h
              constructor
              · have hdecl : declarationsOf (BalsaToken.DeclarationBlock d :: rest) =
                    d.token ++ declarationsOf rest := by
                  simp [declarationsOf]
                rw [hdecl, scopeSpecAux_append, hsc, Option.some_bind]
                exact ih1
              · rw [ih2, hrepl, List.filterMap_cons]
                rfl

/-- C7: for every token list that compiles, the global scope is exactly the
left fold of (overwriting) insertions of the cast declaration values in token
order — so a later declaration of an already-present identifier overwrites the
earlier one and duplicates raise no error — and the instruction list is
exactly the parameter-block instructions (`instrOf` yields `none` for every
declaration block, so no `ReplacementInstruction` is ever emitted for one);
moreover an insertion always wins the subsequent lookup of its key. -/
theorem compile_scope_and_no_dec_instructions (tokens : List BalsaToken)
    (tpl : CompiledTemplate) (h : Compiler.compile_from_tokens tokens = .ok tpl) :
    scopeSpecAux [] (declarationsOf tokens) = some tpl.global_scope.vars ∧
    tpl.replacements = tokens.filterMap instrOf ∧
    (∀ (m : List (String × BalsaValue)) (k : String) (v : BalsaValue),
      mapGet (mapInsert m k v) k = some v) := by
  simp only [Compiler.compile_from_tokens] at h
  cases hc : compileTokens ⟨⟨[]⟩, []⟩ tokens with
  | error e => simp [hc] at h
  | ok c =>
      simp only [hc] at h
      cases h
      obtain ⟨h1, h2⟩ := compileTokens_ok tokens _ _ hc
      exact ⟨h1, by simpa using h2, fun m k v => mapGet_mapInsert_self m k v⟩

/-- C7 witness: a token list with a duplicate declaration identifier compiles
without error; the scope holds the later value and the only instruction comes
from the parameter block. -/
theorem compile_scope_witness :
    Compiler.compile_from_tokens
        [BalsaToken.DeclarationBlock ⟨0, 10,
          [⟨.Identifier "a", .Type .Integer, .Value (.Integer 1)⟩,
           ⟨.Identifier "a", .Type .Integer, .Value (.Integer 2)⟩]⟩,
         BalsaToken.ParameterBlock ⟨12, 20, ⟨.Identifier "p", .Type .String, none⟩⟩] =
      .ok ⟨⟨[("a", .Integer 2)]⟩, [⟨12, 20, .Parameter ⟨"p", .String, none⟩⟩]⟩ ∧
    scopeSpecAux []
        (declarationsOf
          [BalsaToken.DeclarationBlock ⟨0, 10,
            [⟨.Identifier "a", .Type .Integer, .Value (.Integer 1)⟩,
             ⟨.Identifier "a", .Type .Integer, .Value (.Integer 2)⟩]⟩,
           BalsaToken.ParameterBlock ⟨12, 20,
             ⟨.Identifier "p", .Type .String, none⟩⟩]) =
      some [("a", BalsaValue.Integer 2)] :=
  ⟨by decide,
   (compile_scope_and_no_dec_instructions _
     ⟨⟨[("a", .Integer 2)]⟩, [⟨12, 20, .Parameter ⟨"p", .String, none⟩⟩]⟩
     (by decide)).1⟩

/-! ## Unknown-option-key lemmas -/

theorem paramOptionsFold_bad (bs : Nat) (ty : BalsaType) (map : OptionsMap) :
    ∀ acc, map.any (fun p => p.1 ≠ DEFAULT_VALUE) = true →
      ∃ e, paramOptionsFold bs ty acc map = .error e := by
  induction map with
  | nil => intro acc h; simp at h
  | cons kv rest ih =>
      intro acc h
      obtain ⟨key, value⟩ := kv
      simp only [paramOptionsFold]
      by_cases hk : key = DEFAULT_VALUE
      · rw [if_pos hk]
        have hrest : rest.any (fun p => p.1 ≠ DEFAULT_VALUE) = true := by
          rw [List.any_cons] at h
          simpa [hk] using h
        cases hval : value.as_value with
        | none =>
            simp only [hval]
            exact ⟨_, rfl⟩
        | some v =>
            simp only [hval]
            cases hcast : v.try_cast ty with
            | error e =>
                simp only [hcast]
                exact ⟨_, rfl⟩
            | ok dv =>
                simp only [hcast]
                exact ih _ hrest
      · rw [if_neg hk]
        exact ⟨_, rfl⟩

theorem parse_param_block_bad (c : Compiler) (b : Block ParameterBlockIntermediate)
    (h : hasUnknownOptionKey (.ParameterBlock b) = true) :
    ∃ e, c.parse_param_block b = .error e := by
  simp only [Compiler.parse_param_block]
  cases hid : b.token.variable_name.as_identifier with
  | none => exact ⟨_, rfl⟩
  | some i =>
      cases hty : b.token.variable_type.as_type with
      | none => exact ⟨_, rfl⟩
      | some ty =>
          simp only [hasUnknownOptionKey] at h
          cases hopt : b.token.options with
          | none => rw [hopt] at h; simp at h
          | some map =>
              rw [hopt] at h
              obtain ⟨e, he⟩ := paramOptionsFold_bad b.start_pos.toNat ty map none h
              exact ⟨e, by simp [he]⟩

theorem compileTokens_bad (tokens : List BalsaToken) :
    ∀ c t, t ∈ tokens → hasUnknownOptionKey t = true →
      ∃ e, compileTokens c tokens = .error e := by
  induction tokens with
  | nil => intro c t ht _; simp at ht
  | cons u rest ih =>
      intro c t ht hbad
      rcases List.mem_cons.mp ht with hhead | htail
      · subst hhead
        cases t with
        | DeclarationBlock d => simp [hasUnknownOptionKey] at hbad
        | ParameterBlock p =>
            obtain ⟨e, he⟩ := parse_param_block_bad c p hbad
            exact ⟨e, by simp [compileTokens, he]⟩
      · cases u with
        | ParameterBlock p =>
            simp only [compileTokens]
            cases hp : c.parse_param_block p with
            | error e => exact ⟨e, rfl⟩
            | ok c1 => exact ih c1 t htail hbad
        | DeclarationBlock d =>
            simp only [compileTokens]
            cases hp : c.parse_dec_block d with
            | error e => exact ⟨e, rfl⟩
            | ok c1 => exact ih c1 t htail hbad

theorem compileTokens_append (l1 l2 : List BalsaToken) :
    ∀ c, compileTokens c (l1 ++ l2) =
      match compileTokens c l1 with
      | .error e => .error e
      | .ok c1 => compileTokens c1 l2 := by
  induction l1 with
  | nil => intro c; rfl
  | cons u rest ih =>
      intro c
      rw [List.cons_append]
      cases u with
      | ParameterBlock p =>
          simp only [compileTokens]
          cases c.parse_param_block p with
          | error e => rfl
          | ok c1 => exact ih c1
      | DeclarationBlock d =>
          simp only [compileTokens]
          cases c.parse_dec_block d with
          | error e => rfl
          | ok c1 => exact ih c1

theorem paramOptionsFold_first_bad (bs : Nat) (ty : BalsaType)
    (key : String) (value : BalsaExpression) (m2 : OptionsMap)
    (hk : key ≠ DEFAULT_VALUE) (m1 : OptionsMap)
    (hm1 : ∀ kv ∈ m1, kv.1 = DEFAULT_VALUE ∧
      ∃ v dv, kv.2.as_value = some v ∧ v.try_cast ty = .ok dv) :
    ∀ acc, paramOptionsFold bs ty acc (m1 ++ (key, value) :: m2) =
      .error (BalsaError.invalid_parameter bs key) := by
  induction m1 with
  | nil =>
      intro acc
      rw [List.nil_append]
      simp only [paramOptionsFold]
      rw [if_neg hk]
  | cons kv m1' ih =>
      intro acc
      obtain ⟨hdef, v, dv, hval, hcast⟩ := hm1 kv (List.mem_cons_self kv m1')
      rw [List.cons_append]
      obtain ⟨k0, v0⟩ := kv
      simp only [paramOptionsFold]
      simp only at hdef hval
      rw [if_pos hdef, hval]
      simp only [hcast]
      exact ih (fun kv hkv => hm1 kv (List.mem_cons_of_mem _ hkv)) _

/-- C6 (amended): a token list containing a parameter block whose options map
has a key other than `defaultValue` never compiles — some compile error is
returned and no `CompiledTemplate` is produced; and the error is
`InvalidParameter` naming that key whenever it is the first validation
failure the (fail-fast) compiler reaches: all preceding tokens compile, the
block's identifier and type are valid, and every options entry iterated
before the key is a valid `defaultValue` entry. -/
theorem unknown_option_key_never_compiles (tokens : List BalsaToken)
    (t : BalsaToken) (ht : t ∈ tokens) (hbad : hasUnknownOptionKey t = true) :
    (∃ e, Compiler.compile_from_tokens tokens = .error e) ∧
    (∀ (pre : List BalsaToken) (b : Block ParameterBlockIntermediate)
       (post : List BalsaToken) (c1 : Compiler) (i : String) (ty : BalsaType)
       (m1 : OptionsMap) (key : String) (value : BalsaExpression) (m2 : OptionsMap),
       tokens = pre ++ BalsaToken.ParameterBlock b :: post →
       compileTokens ⟨⟨[]⟩, []⟩ pre = .ok c1 →
       b.token.variable_name.as_identifier = some i →
       b.token.variable_type.as_type = some ty →
       b.token.options = some (m1 ++ (key, value) :: m2) →
       key ≠ DEFAULT_VALUE →
       (∀ kv ∈ m1, kv.1 = DEFAULT_VALUE ∧
         ∃ v dv, kv.2.as_value = some v ∧ v.try_cast ty = .ok dv) →
       Compiler.compile_from_tokens tokens =
         .error (BalsaError.invalid_parameter b.start_pos.toNat key)) := by
  constructor
  · obtain ⟨e, he⟩ := compileTokens_bad tokens ⟨⟨[]⟩, []⟩ t ht hbad
    exact ⟨e, by simp [Compiler.compile_from_tokens, he]⟩
  · intro pre b post c1 i ty m1 key value m2 hsplit hpre hid hty hopt hk hm1
    have hfold : c1.parse_param_block b =
        .error (BalsaError.invalid_parameter b.start_pos.toNat key) := by
      simp only [Compiler.parse_param_block, hid, hty, hopt]
      simp [paramOptionsFold_first_bad b.start_pos.toNat ty key value m2 hk m1 hm1]
    have : compileTokens ⟨⟨[]⟩, []⟩ tokens =
        .error (BalsaError.invalid_parameter b.start_pos.toNat key) := by
      rw [hsplit, compileTokens_append, hpre]
      simp [compileTokens, hfold]
    simp [Compiler.compile_from_tokens, this]

/-- C6 counterexample: the token list below contains a parameter block whose
options map holds the unrecognized key `bogus`, yet compilation fails with
`InvalidTypeExpression` for the *earlier* invalid block — not with an
`InvalidParameter` error naming `bogus` as the claim requires. -/
theorem unknown_option_key_error_cex :
    Compiler.compile_from_tokens
        [BalsaToken.ParameterBlock ⟨0, 5,
          ⟨.Identifier "x", .Identifier "nottype", none⟩⟩,
         BalsaToken.ParameterBlock ⟨6, 9,
          ⟨.Identifier "y", .Type .String,
            some [("bogus", .Value (.String "z"))]⟩⟩] =
      .error (.CompileError (.InvalidTypeExpression
        ⟨0, ⟨.Identifier "nottype"⟩⟩)) ∧
    Compiler.compile_from_tokens
        [BalsaToken.ParameterBlock ⟨0, 5,
          ⟨.Identifier "x", .Identifier "nottype", none⟩⟩,
         BalsaToken.ParameterBlock ⟨6, 9,
          ⟨.Identifier "y", .Type .String,
            some [("bogus", .Value (.String "z"))]⟩⟩] ≠
      .error (BalsaError.invalid_parameter 6 "bogus") :=
  ⟨by decide, by decide⟩

/-- C6 witness: a single otherwise-valid parameter block with the
unrecognized key `bogus` fails to compile with `InvalidParameter "bogus"`. -/
theorem unknown_option_key_never_compiles_witness :
    hasUnknownOptionKey
        (BalsaToken.ParameterBlock ⟨6, 9,
          ⟨.Identifier "y", .Type .String,
            some [("bogus", .Value (.String "z"))]⟩⟩) = true ∧
    Compiler.compile_from_tokens
        [BalsaToken.ParameterBlock ⟨6, 9,
          ⟨.Identifier "y", .Type .String,
            some [("bogus", .Value (.String "z"))]⟩⟩] =
      .error (BalsaError.invalid_parameter 6 "bogus") :=
  ⟨by decide,
   (unknown_option_key_never_compiles _ _ (List.mem_cons_self _ _) (by decide)).2
     [] ⟨6, 9, ⟨.Identifier "y", .Type .String,
       some [("bogus", .Value (.String "z"))]⟩⟩ [] ⟨⟨[]⟩, []⟩ "y" .String
     [] "bogus" (.Value (.String "z")) [] rfl rfl rfl rfl rfl (by decide)
     (by simp)⟩

/-! ## Position-monotonicity of the combinators -/

theorem mono_fmapResult {α β : Type} (p : ParserFn α)
    (f : α → Span → Except ParseError β) (hp : Mono p) : Mono (fmapResult p f) := by
  intro pos input rem out h
  unfold fmapResult at h
  cases hpe : p pos input with
  | error e => simp [hpe] at h
  | ok pr =>
      obtain ⟨rem1, s1, e1, tok1⟩ := pr
      simp only [hpe] at h
      cases hf : f tok1 ⟨s1, e1⟩ with
      | error e => simp [hf] at h
      | ok tok =>
          simp only [hf] at h
          cases h
          exact hp pos input _ _ hpe

theorem adv_fmapResult {α β : Type} (p : ParserFn α)
    (f : α → Span → Except ParseError β) (hp : Advances p) :
    Advances (fmapResult p f) := by
  intro pos input rem out h
  unfold fmapResult at h
  cases hpe : p pos input with
  | error e => simp [hpe] at h
  | ok pr =>
      obtain ⟨rem1, s1, e1, tok1⟩ := pr
      simp only [hpe] at h
      cases hf : f tok1 ⟨s1, e1⟩ with
      | error e => simp [hf] at h
      | ok tok =>
          simp only [hf] at h
          cases h
          exact hp pos input _ _ hpe

theorem mono_orP {α : Type} (l r : ParserFn α) (hl : Mono l) (hr : Mono r) :
    Mono (orP l r) := by
  intro pos input rem out h
  unfold orP at h
  cases hle : l pos input with
  | error e =>
      simp only [hle] at h
      exact hr pos input rem out h
  | ok pr =>
      simp only [hle] at h
      cases h
      exact hl pos input _ _ hle

theorem adv_orP {α : Type} (l r : ParserFn α) (hl : Advances l) (hr : Advances r) :
    Advances (orP l r) := by
  intro pos input rem out h
  unfold orP at h
  cases hle : l pos input with
  | error e =>
      simp only [hle] at h
      exact hr pos input rem out h
  | ok pr =>
      simp only [hle] at h
      cases h
      exact hl pos input _ _ hle

theorem mono_fmapResultChain {α β γ : Type} (l : ParserFn α) (r : ParserFn β)
    (comb : α → β → Except ParseError γ) (hl : Mono l) (hr : Mono r) :
    Mono (fmapResultChain l r comb) := by
  intro pos input rem out h
  unfold fmapResultChain at h
  cases hle : l pos input with
  | error e => simp [hle] at h
  | ok pr =>
      obtain ⟨rem1, ls, le, lt⟩ := pr
      simp only [hle] at h
      cases hre : r le rem1 with
      | error e => simp [hre] at h
      | ok pr2 =>
          obtain ⟨rem2, rs, re, rt⟩ := pr2
          simp only [hre] at h
          cases hc : comb lt rt with
          | error e => simp [hc] at h
          | ok tok =>
              simp only [hc] at h
              cases h
              obtain ⟨hls, hle'⟩ := hl pos input _ _ hle
              obtain ⟨_, hre'⟩ := hr le rem1 _ _ hre
              exact ⟨hls, le_trans hle' hre'⟩

theorem mono_leftKeep {α β : Type} (l : ParserFn α) (r : ParserFn β)
    (hl : Mono l) (hr : Mono r) : Mono (leftKeep l r) := by
  intro pos input rem out h
  unfold leftKeep at h
  cases hle : l pos input with
  | error e => simp [hle] at h
  | ok pr =>
      obtain ⟨rem1, ls, le, lt⟩ := pr
      simp only [hle] at h
      cases hre : r le rem1 with
      | error e => simp [hre] at h
      | ok pr2 =>
          obtain ⟨rem2, rs, re, rt⟩ := pr2
          simp only [hre] at h
          cases h
          obtain ⟨hls, hle'⟩ := hl pos input _ _ hle
          obtain ⟨_, hre'⟩ := hr le rem1 _ _ hre
          exact ⟨hls, le_trans hle' hre'⟩

theorem mono_rightKeep {α β : Type} (l : ParserFn α) (r : ParserFn β)
    (hl : Mono l) (hr : Mono r) : Mono (rightKeep l r) := by
  intro pos input rem out h
  unfold rightKeep at h
  cases hle : l pos input with
  | error e => simp [hle] at h
  | ok pr =>
      obtain ⟨rem1, ls, le, lt⟩ := pr
      simp only [hle] at h
      cases hre : r le rem1 with
      | error e => simp [hre] at h
      | ok pr2 =>
          obtain ⟨rem2, rs, re, rt⟩ := pr2
          simp only [hre] at h
          cases h
          obtain ⟨hls, hle'⟩ := hl pos input _ _ hle
          obtain ⟨_, hre'⟩ := hr le rem1 _ _ hre
          exact ⟨hls, le_trans hle' hre'⟩

theorem adv_rightKeep {α β : Type} (l : ParserFn α) (r : ParserFn β)
    (hl : Advances l) (hr : Mono r) : Advances (rightKeep l r) := by
  intro pos input rem out h
  unfold rightKeep at h
  cases hle : l pos input with
  | error e => simp [hle] at h
  | ok pr =>
      obtain ⟨rem1, ls, le, lt⟩ := pr
      simp only [hle] at h
      cases hre : r le rem1 with
      | error e => simp [hre] at h
      | ok pr2 =>
          obtain ⟨rem2, rs, re, rt⟩ := pr2
          simp only [hre] at h
          cases h
          have hle' := hl pos input _ _ hle
          obtain ⟨_, hre'⟩ := hr le rem1 _ _ hre
          exact lt_of_lt_of_le hle' hre'

theorem mono_chainStrChar (l : ParserFn String) (r : ParserFn Char)
    (hl : Mono l) (hr : Mono r) : Mono (chainStrChar l r) := by
  intro pos input rem out h
  unfold chainStrChar at h
  cases hle : l pos input with
  | error e => simp [hle] at h
  | ok pr =>
      obtain ⟨rem1, ls, le, lt⟩ := pr
      simp only [hle] at h
      cases hre : r le rem1 with
      | error e => simp [hre] at h
      | ok pr2 =>
          obtain ⟨rem2, rs, re, rt⟩ := pr2
          simp only [hre] at h
          cases h
          obtain ⟨hls, hle'⟩ := hl pos input _ _ hle
          obtain ⟨_, hre'⟩ := hr le rem1 _ _ hre
          exact ⟨hls, le_trans hle' hre'⟩

theorem adv_chainStrChar (l : ParserFn String) (r : ParserFn Char)
    (hl : Advances l) (hr : Mono r) : Advances (chainStrChar l r) := by
  intro pos input rem out h
  unfold chainStrChar at h
  cases hle : l pos input with
  | error e => simp [hle] at h
  | ok pr =>
      obtain ⟨rem1, ls, le, lt⟩ := pr
      simp only [hle] at h
      cases hre : r le rem1 with
      | error e => simp [hre] at h
      | ok pr2 =>
          obtain ⟨rem2, rs, re, rt⟩ := pr2
          simp only [hre] at h
          cases h
          have hle' := hl pos input _ _ hle
          obtain ⟨_, hre'⟩ := hr le rem1 _ _ hre
          exact lt_of_lt_of_le hle' hre'

theorem mono_chainConsOpt {α : Type} (l : ParserFn α) (r : ParserFn (Option (List α)))
    (hl : Mono l) (hr : Mono r) : Mono (chainConsOpt l r) := by
  intro pos input rem out h
  unfold chainConsOpt at h
  cases hle : l pos input with
  | error e => simp [hle] at h
  | ok pr =>
      obtain ⟨rem1, ls, le, lt⟩ := pr
      simp only [hle] at h
      cases hre : r le rem1 with
      | error e => simp [hre] at h
      | ok pr2 =>
          obtain ⟨rem2, rs, re, rt⟩ := pr2
          simp only [hre] at h
          cases h
          obtain ⟨hls, hle'⟩ := hl pos input _ _ hle
          obtain ⟨_, hre'⟩ := hr le rem1 _ _ hre
          exact ⟨hls, le_trans hle' hre'⟩

theorem mono_optionalP {α : Type} (p : ParserFn α) (hp : Mono p) :
    Mono (optionalP p) := by
  intro pos input rem out h
  unfold optionalP at h
  cases hpe : p pos input with
  | ok pr =>
      obtain ⟨rem1, s1, e1, tok1⟩ := pr
      simp only [hpe] at h
      cases h
      exact hp pos input _ _ hpe
  | error e =>
      cases e with
      | notMatched =>
          simp only [hpe] at h
          cases h
          exact ⟨rfl, le_refl pos⟩
      | malformedInput q => simp [hpe] at h

theorem mono_charP (c : Char) : Mono (charP c) := by
  intro pos input rem out h
  cases input with
  | nil => simp [charP] at h
  | cons ch rest =>
      simp only [charP] at h
      by_cases hc : ch = c
      · rw [if_pos hc] at h
        cases h
        refine ⟨rfl, ?_⟩
        show pos ≤ pos + 1
        omega
      · rw [if_neg hc] at h
        simp at h

theorem adv_charP (c : Char) : Advances (charP c) := by
  intro pos input rem out h
  cases input with
  | nil => simp [charP] at h
  | cons ch rest =>
      simp only [charP] at h
      by_cases hc : ch = c
      · rw [if_pos hc] at h
        cases h
        show pos < pos + 1
        omega
      · rw [if_neg hc] at h
        simp at h

theorem mono_takeUntilChar (t : Char) : Mono (takeUntilChar t) := by
  intro pos input rem out h
  unfold takeUntilChar at h
  dsimp only at h
  split at h
  · simp at h
  · cases h
    refine ⟨rfl, ?_⟩
    show pos ≤ pos + ((input.takeWhile (fun x => x ≠ t)).length : Int)
    omega

theorem adv_takeUntilChar (t : Char) : Advances (takeUntilChar t) := by
  intro pos input rem out h
  unfold takeUntilChar at h
  dsimp only at h
  split at h
  · simp at h
  · rename_i hne
    cases h
    show pos < pos + ((input.takeWhile (fun x => x ≠ t)).length : Int)
    have : (input.takeWhile (fun x => x ≠ t)).length ≠ 0 := by
      intro hz
      exact hne (List.isEmpty_iff.mpr (List.eq_nil_of_length_eq_zero hz))
    omega

theorem mono_takeWhileChars (cs : List Char) : Mono (takeWhileChars cs) := by
  intro pos input rem out h
  unfold takeWhileChars at h
  dsimp only at h
  split at h
  · simp at h
  · cases h
    refine ⟨rfl, ?_⟩
    show pos ≤ pos + ((input.takeWhile (fun x => cs.contains x)).length : Int)
    omega

theorem adv_takeWhileChars (cs : List Char) : Advances (takeWhileChars cs) := by
  intro pos input rem out h
  unfold takeWhileChars at h
  dsimp only at h
  split at h
  · simp at h
  · rename_i hne
    cases h
    show pos < pos + ((input.takeWhile (fun x => cs.contains x)).length : Int)
    have : (input.takeWhile (fun x => cs.contains x)).length ≠ 0 := by
      intro hz
      exact hne (List.isEmpty_iff.mpr (List.eq_nil_of_length_eq_zero hz))
    omega

theorem mono_manyAux {α : Type} (p : ParserFn α) (hp : Mono p) :
    ∀ fuel pos input rem out, manyAux p fuel pos input = .ok (rem, out) →
      out.start_pos = pos ∧ pos ≤ out.end_pos := by
  intro fuel
  induction fuel with
  | zero =>
      intro pos input rem out h
      cases h
      exact ⟨rfl, le_refl pos⟩
  | succ fuel ih =>
      intro pos input rem out h
      simp only [manyAux] at h
      cases hpe : p pos input with
      | ok pr =>
          obtain ⟨rem1, s1, e1, tok1⟩ := pr
          simp only [hpe] at h
          cases hrec : manyAux p fuel e1 rem1 with
          | error e => simp [hrec] at h
          | ok pr2 =>
              obtain ⟨rem2, s2, e2, tok2⟩ := pr2
              simp only [hrec] at h
              cases h
              obtain ⟨_, h1⟩ := hp pos input _ _ hpe
              obtain ⟨_, h2⟩ := ih e1 rem1 _ _ hrec
              exact ⟨rfl, le_trans h1 h2⟩
      | error e =>
          cases e with
          | notMatched =>
              simp only [hpe] at h
              cases h
              exact ⟨rfl, le_refl pos⟩
          | malformedInput q => simp [hpe] at h

theorem mono_many {α : Type} (p : ParserFn α) (hp : Mono p) : Mono (many p) := by
  intro pos input rem out h
  exact mono_manyAux p hp (input.length + 1) pos input rem out h

theorem mono_middleKeep {α β γ : Type} (l : ParserFn α) (m : ParserFn β)
    (r : ParserFn γ) (hl : Mono l) (hm : Mono m) (hr : Mono r) :
    Mono (middleKeep l m r) :=
  mono_rightKeep l (leftKeep m r) hl (mono_leftKeep m r hm hr)

theorem adv_middleKeep {α β γ : Type} (l : ParserFn α) (m : ParserFn β)
    (r : ParserFn γ) (hl : Advances l) (hm : Mono m) (hr : Mono r) :
    Advances (middleKeep l m r) :=
  adv_rightKeep l (leftKeep m r) hl (mono_leftKeep m r hm hr)

theorem foldl_chainStrChar_mono (cs : List Char) :
    ∀ acc : ParserFn String, Mono acc → Advances acc →
      Mono (cs.foldl (fun a p => chainStrChar a (charP p)) acc) ∧
      Advances (cs.foldl (fun a p => chainStrChar a (charP p)) acc) := by
  induction cs with
  | nil => intro acc hm ha; exact ⟨hm, ha⟩
  | cons c rest ih =>
      intro acc hm ha
      rw [List.foldl_cons]
      exact ih (chainStrChar acc (charP c))
        (mono_chainStrChar acc (charP c) hm (mono_charP c))
        (adv_chainStrChar acc (charP c) ha (mono_charP c))

theorem mono_adv_stringP (str : String) :
    Mono (stringP str) ∧ Advances (stringP str) := by
  unfold stringP
  cases str.toList with
  | nil =>
      constructor
      · intro pos input rem out h
        simp at h
      · intro pos input rem out h
        simp at h
  | cons c cs =>
      exact foldl_chainStrChar_mono cs _
        (mono_fmapResult _ _ (mono_charP c))
        (adv_fmapResult _ _ (adv_charP c))

/-! ## Monotonicity of the grammar -/

theorem mono_fmap {α β : Type} (p : ParserFn α) (f : α → Span → β) (hp : Mono p) :
    Mono (fmap p f) := by
  unfold fmap
  exact mono_fmapResult _ _ hp

theorem adv_fmap {α β : Type} (p : ParserFn α) (f : α → Span → β) (hp : Advances p) :
    Advances (fmap p f) := by
  unfold fmap
  exact adv_fmapResult _ _ hp

theorem mono_fmapChain {α β γ : Type} (l : ParserFn α) (r : ParserFn β)
    (f : α → β → γ) (hl : Mono l) (hr : Mono r) : Mono (fmapChain l r f) := by
  unfold fmapChain
  exact mono_fmapResultChain _ _ _ hl hr

theorem mono_keySepValue {κ δ ν : Type} (k : ParserFn κ) (d : ParserFn δ)
    (v : ParserFn ν) (hk : Mono k) (hd : Mono d) (hv : Mono v) :
    Mono (keySepValue k d v) := by
  unfold keySepValue
  exact mono_fmapChain _ _ _ hk (mono_rightKeep _ _ hd hv)

theorem mono_wsP : Mono wsP := by
  unfold wsP
  exact mono_fmap _ _ (mono_optionalP _ (mono_takeWhileChars _))

theorem mono_wsPadded {α : Type} (p : ParserFn α) (hp : Mono p) :
    Mono (wsPadded p) := by
  unfold wsPadded
  exact mono_middleKeep _ _ _ mono_wsP hp mono_wsP

theorem mono_variableNameP : Mono variableNameP := by
  unfold variableNameP
  exact mono_takeWhileChars _

theorem mono_stringLiteralP : Mono stringLiteralP := by
  unfold stringLiteralP
  exact mono_fmap _ _
    (mono_middleKeep _ _ _ (mono_charP _) (mono_takeUntilChar _) (mono_charP _))

theorem mono_intLiteralP : Mono intLiteralP := by
  unfold intLiteralP
  exact mono_fmapResult _ _ (mono_takeWhileChars _)

theorem mono_balsaTypeP : Mono balsaTypeP := by
  unfold balsaTypeP
  exact mono_orP _ _ (mono_fmap _ _ (mono_adv_stringP "string").1)
    (mono_orP _ _ (mono_fmap _ _ (mono_adv_stringP "color").1)
      (mono_orP _ _ (mono_fmap _ _ (mono_adv_stringP "int").1)
        (mono_fmap _ _ (mono_adv_stringP "float").1)))

theorem mono_balsaValueP : Mono balsaValueP := by
  unfold balsaValueP
  exact mono_orP _ _ mono_stringLiteralP mono_intLiteralP

theorem mono_balsaExprP : Mono balsaExprP := by
  unfold balsaExprP
  exact mono_orP _ _ (mono_fmap _ _ mono_balsaValueP)
    (mono_orP _ _ (mono_fmap _ _ mono_balsaTypeP)
      (mono_fmap _ _ mono_variableNameP))

theorem mono_keyValueDelimiterP : Mono keyValueDelimiterP := by
  unfold keyValueDelimiterP
  exact mono_fmap _ _ (mono_wsPadded _ (mono_charP _))

theorem mono_variableWithTypeP : Mono variableWithTypeP := by
  unfold variableWithTypeP
  exact mono_keySepValue _ _ _ mono_balsaExprP mono_keyValueDelimiterP mono_balsaExprP

theorem mono_keyValueP : Mono keyValueP := by
  unfold keyValueP
  exact mono_keySepValue _ _ _ mono_variableNameP mono_keyValueDelimiterP mono_balsaExprP

theorem mono_listDelimiterP : Mono listDelimiterP := by
  unfold listDelimiterP
  exact mono_fmap _ _ (mono_wsPadded _ (mono_charP _))

theorem mono_declarationDelimiterP : Mono declarationDelimiterP := by
  unfold declarationDelimiterP
  exact mono_fmap _ _ (mono_wsPadded _ (mono_charP _))

theorem mono_declarationP : Mono declarationP := by
  unfold declarationP
  exact mono_fmapChain _ _ _ mono_variableWithTypeP
    (mono_rightKeep _ _ mono_declarationDelimiterP mono_balsaExprP)

theorem mono_delimitedList {α β : Type} (item : ParserFn α) (delim : ParserFn β)
    (hi : Mono item) (hd : Mono delim) : Mono (delimitedList item delim) := by
  unfold delimitedList
  exact mono_fmap _ _ (mono_optionalP _ (mono_chainConsOpt _ _ hi
    (mono_optionalP _ (mono_many _ (mono_fmapChain _ _ _ hd hi)))))

theorem mono_closingBracketP : Mono closingBracketP := by
  unfold closingBracketP
  exact mono_fmap _ _ (mono_adv_stringP "\x7d\x7d").1

theorem adv_parameterOpenBracketP : Advances parameterOpenBracketP := by
  unfold parameterOpenBracketP
  exact adv_fmap _ _ (mono_adv_stringP "\x7b\x7b").2

theorem adv_declarationOpenBracketP : Advances declarationOpenBracketP := by
  unfold declarationOpenBracketP
  exact adv_fmap _ _ (mono_adv_stringP "\x7b\x7b@").2

/-! ## Block span lemmas -/

theorem fmap_mkBlock_ok {β : Type} (M : ParserFn β) (mk : β → Span → BalsaToken)
    (hmk : ∀ b s, (mk b s).startPos = s.start_pos ∧ (mk b s).endPos = s.end_pos)
    (hM : Mono M) (hA : Advances M) :
    ∀ pos input rem out, fmap M mk pos input = .ok (rem, out) →
      out.start_pos = pos ∧ pos < out.end_pos ∧
      out.token.startPos = pos ∧ out.token.endPos = out.end_pos := by
  intro pos input rem out h
  unfold fmap fmapResult at h
  cases hm : M pos input with
  | error e => simp [hm] at h
  | ok pr =>
      obtain ⟨rem1, s1, e1, tok1⟩ := pr
      simp only [hm] at h
      cases h
      obtain ⟨h1, _⟩ := hM pos input _ _ hm
      have h2 := hA pos input _ _ hm
      obtain ⟨hs, he⟩ := hmk tok1 ⟨s1, e1⟩
      exact ⟨h1, h2, by rw [hs]; exact h1, by rw [he]⟩

theorem mono_parameterOpenBracketP : Mono parameterOpenBracketP := by
  unfold parameterOpenBracketP
  exact mono_fmap _ _ (mono_adv_stringP "\x7b\x7b").1

theorem mono_declarationOpenBracketP : Mono declarationOpenBracketP := by
  unfold declarationOpenBracketP
  exact mono_fmap _ _ (mono_adv_stringP "\x7b\x7b@").1

theorem parameterBlockP_ok :
    ∀ pos input rem out, parameterBlockP pos input = .ok (rem, out) →
      out.start_pos = pos ∧ pos < out.end_pos ∧
      out.token.startPos = pos ∧ out.token.endPos = out.end_pos := by
  intro pos input rem out h
  unfold parameterBlockP at h
  refine fmap_mkBlock_ok _ _ ?_ ?_ ?_ pos input rem out h
  · intro b sp
    exact ⟨rfl, rfl⟩
  · exact mono_middleKeep _ _ _ mono_parameterOpenBracketP
      (mono_wsPadded _ (mono_fmapChain _ _ _ mono_variableWithTypeP
        (mono_optionalP _ (mono_rightKeep _ _ mono_listDelimiterP
          (mono_delimitedList _ _ mono_keyValueP mono_listDelimiterP)))))
      mono_closingBracketP
  · exact adv_middleKeep _ _ _ adv_parameterOpenBracketP
      (mono_wsPadded _ (mono_fmapChain _ _ _ mono_variableWithTypeP
        (mono_optionalP _ (mono_rightKeep _ _ mono_listDelimiterP
          (mono_delimitedList _ _ mono_keyValueP mono_listDelimiterP)))))
      mono_closingBracketP

theorem declarationBlockP_ok :
    ∀ pos input rem out, declarationBlockP pos input = .ok (rem, out) →
      out.start_pos = pos ∧ pos < out.end_pos ∧
      out.token.startPos = pos ∧ out.token.endPos = out.end_pos := by
  intro pos input rem out h
  unfold declarationBlockP at h
  refine fmap_mkBlock_ok _ _ ?_ ?_ ?_ pos input rem out h
  · intro b sp
    exact ⟨rfl, rfl⟩
  · exact mono_middleKeep _ _ _ mono_declarationOpenBracketP
      (mono_wsPadded _ (mono_delimitedList _ _ mono_declarationP mono_listDelimiterP))
      mono_closingBracketP
  · exact adv_middleKeep _ _ _ adv_declarationOpenBracketP
      (mono_wsPadded _ (mono_delimitedList _ _ mono_declarationP mono_listDelimiterP))
      mono_closingBracketP

theorem blockP_ok :
    ∀ pos input rem out, blockP pos input = .ok (rem, out) →
      out.start_pos = pos ∧ pos < out.end_pos ∧
      out.token.startPos = pos ∧ out.token.endPos = out.end_pos := by
  intro pos input rem out h
  unfold blockP orP at h
  cases hp : parameterBlockP pos input with
  | ok pr =>
      simp only [hp] at h
      cases h
      exact parameterBlockP_ok pos input _ _ hp
  | error e =>
      simp only [hp] at h
      exact declarationBlockP_ok pos input rem out h

/-! ## Left-to-right ordering of the document scanner -/

theorem fmapSome_blockP_ok :
    ∀ pos input rem out,
      fmap blockP (fun v _ => some v) pos input = .ok (rem, out) →
      out.start_pos = pos ∧ pos < out.end_pos ∧
      ∃ bt, out.token = some bt ∧ bt.startPos = pos ∧ bt.endPos = out.end_pos := by
  intro pos input rem out h
  unfold fmap fmapResult at h
  cases hbl : blockP pos input with
  | error e => simp [hbl] at h
  | ok pr =>
      obtain ⟨rem1, s1, e1, t1⟩ := pr
      simp only [hbl] at h
      cases h
      obtain ⟨h1, h2, h3, h4⟩ := blockP_ok pos input _ _ hbl
      exact ⟨h1, h2, t1, rfl, h3, h4⟩

theorem balsaStepP_ok :
    ∀ pos input rem out, balsaStepP pos input = .ok (rem, out) →
      out.start_pos = pos ∧ pos < out.end_pos ∧
      ∀ t, out.token = some t →
        pos ≤ t.startPos ∧ t.startPos < t.endPos ∧ t.endPos ≤ out.end_pos := by
  intro pos input rem out h
  unfold balsaStepP rightKeep at h
  cases htu : takeUntilChar '\x7b' pos input with
  | error e => simp [htu] at h
  | ok pr =>
      obtain ⟨rem1, s1, e1, t1⟩ := pr
      simp only [htu] at h
      have he1 : pos < e1 := adv_takeUntilChar _ pos input _ _ htu
      obtain ⟨hs1, _⟩ := mono_takeUntilChar _ pos input _ _ htu
      cases hor : orP (fmap blockP (fun v _ => some v))
          (fmap (takeWhileChars ['\x7b']) (fun _ _ => none)) e1 rem1 with
      | error e => simp [hor] at h
      | ok pr2 =>
          obtain ⟨rem2, s2, e2, t2⟩ := pr2
          simp only [hor] at h
          cases h
          unfold orP at hor
          cases hb : fmap blockP (fun v _ => some v) e1 rem1 with
          | ok pr3 =>
              simp only [hb] at hor
              cases hor
              obtain ⟨hbs, hbe, bt, hbt, hbts, hbte⟩ :=
                fmapSome_blockP_ok e1 rem1 _ _ hb
              refine ⟨hs1, lt_trans he1 hbe, ?_⟩
              intro t ht
              rw [hbt] at ht
              cases ht
              exact ⟨by rw [hbts]; exact le_of_lt he1,
                by rw [hbts, hbte]; exact hbe, by rw [hbte]⟩
          | error e =>
              simp only [hb] at hor
              unfold fmap fmapResult at hor
              cases hw : takeWhileChars ['\x7b'] e1 rem1 with
              | error ew => simp [hw] at hor
              | ok pr4 =>
                  obtain ⟨rem4, s4, e4, t4⟩ := pr4
                  simp only [hw] at hor
                  cases hor
                  obtain ⟨hws, hwe⟩ := mono_takeWhileChars _ e1 rem1 _ _ hw
                  refine ⟨hs1, lt_of_lt_of_le he1 hwe, ?_⟩
                  intro t ht
                  cases ht

theorem TokensOrdered_mono :
    ∀ (ts : List BalsaToken) (lo lo' hi : Int), lo' ≤ lo →
      TokensOrdered lo ts hi → TokensOrdered lo' ts hi := by
  intro ts
  cases ts with
  | nil =>
      intro lo lo' hi hle h
      exact le_trans hle h
  | cons t ts' =>
      intro lo lo' hi hle h
      exact ⟨le_trans hle h.1, h.2.1, h.2.2⟩

theorem manyAux_balsaStep_ordered :
    ∀ fuel pos input rem out,
      manyAux balsaStepP fuel pos input = .ok (rem, out) →
      TokensOrdered pos (out.token.flatMap Option.toList) out.end_pos := by
  intro fuel
  induction fuel with
  | zero =>
      intro pos input rem out h
      cases h
      exact le_refl pos
  | succ fuel ih =>
      intro pos input rem out h
      simp only [manyAux] at h
      cases hstep : balsaStepP pos input with
      | error e =>
          cases e with
          | notMatched =>
              simp only [hstep] at h
              cases h
              exact le_refl pos
          | malformedInput q => simp [hstep] at h
      | ok pr =>
          obtain ⟨rem1, s1, e1, t1⟩ := pr
          simp only [hstep] at h
          cases hrec : manyAux balsaStepP fuel e1 rem1 with
          | error e => simp [hrec] at h
          | ok pr2 =>
              obtain ⟨rem2, s2, e2, toks⟩ := pr2
              simp only [hrec] at h
              cases h
              obtain ⟨_, he1, htok⟩ := balsaStepP_ok pos input _ _ hstep
              have ihrec := ih e1 rem1 _ _ hrec
              cases t1 with
              | none =>
                  simpa using TokensOrdered_mono _ e1 pos e2 (le_of_lt he1) ihrec
              | some t =>
                  obtain ⟨hts, htlt, hte⟩ := htok t rfl
                  refine ⟨hts, htlt, ?_⟩
                  simpa using TokensOrdered_mono _ e1 t.endPos e2 hte ihrec

theorem tokensOrdered_pairwise :
    ∀ (ts : List BalsaToken) (lo hi : Int), TokensOrdered lo ts hi →
      List.Pairwise (fun a b => a.endPos ≤ b.startPos) ts ∧
      ∀ t ∈ ts, lo ≤ t.startPos ∧ t.startPos < t.endPos := by
  intro ts
  induction ts with
  | nil =>
      intro lo hi _
      exact ⟨List.Pairwise.nil, by simp⟩
  | cons t ts' ih =>
      intro lo hi h
      obtain ⟨h1, h2, h3⟩ := h
      obtain ⟨hp, hmem⟩ := ih t.endPos hi h3
      refine ⟨List.Pairwise.cons (fun b hb => (hmem b hb).1) hp, ?_⟩
      intro u hu
      rcases List.mem_cons.mp hu with hhead | htail
      · subst hhead
        exact ⟨h1, h2⟩
      · obtain ⟨hu1, hu2⟩ := hmem u htail
        constructor
        · omega
        · exact hu2

theorem instrOf_spans (t : BalsaToken) (instr : ReplacementInstruction)
    (h : instrOf t = some instr) :
    instr.start_pos = t.startPos.toNat ∧ instr.end_pos = t.endPos.toNat := by
  cases t with
  | DeclarationBlock d => simp [instrOf] at h
  | ParameterBlock b =>
      simp only [instrOf] at h
      cases hid : b.token.variable_name.as_identifier with
      | none => simp [hid] at h
      | some i =>
          simp only [hid, Option.some_bind] at h
          cases hty : b.token.variable_type.as_type with
          | none => simp [hty] at h
          | some ty =>
              simp only [hty, Option.some_bind] at h
              cases hopt : b.token.options with
              | none =>
                  simp only [hopt, Option.map_some'] at h
                  cases h
                  exact ⟨rfl, rfl⟩
              | some map =>
                  simp only [hopt] at h
                  cases hdo : defaultOfOptions ty none map with
                  | none => simp [hdo] at h
                  | some dv =>
                      simp only [hdo, Option.map_some'] at h
                      cases h
                      exact ⟨rfl, rfl⟩

/-- C8: whenever a raw template text compiles, the resulting instruction list
is ordered left to right: along the list every instruction starts strictly
after the previous one starts, and at or after the previous one ends
(non-overlapping spans). -/
theorem balsaP_ordered (pos : Int) (input : List Char) (rem : List Char)
    (out : Parsed (List BalsaToken)) (h : balsaP pos input = .ok (rem, out)) :
    TokensOrdered pos out.token out.end_pos := by
  unfold balsaP fmap fmapResult at h
  cases hm : many balsaStepP pos input with
  | error e => simp [hm] at h
  | ok pr =>
      obtain ⟨rem1, s1, e1, lst⟩ := pr
      simp only [hm] at h
      cases h
      unfold many at hm
      exact manyAux_balsaStep_ordered _ pos input _ _ hm

theorem parse_ordered (text : String) (tokens : List BalsaToken)
    (h : BalsaParser.parse text = .ok tokens) :
    ∃ hi, TokensOrdered 0 tokens hi := by
  unfold BalsaParser.parse at h
  split at h
  · rename_i fst t hbp
    cases h
    exact ⟨t.end_pos, balsaP_ordered 0 text.toList fst t hbp⟩
  · exact absurd h (by simp)

/-- C8: whenever a raw template text compiles, the resulting instruction list
is ordered left to right: along the list every instruction starts strictly
after the previous one starts, and at or after the previous one ends
(non-overlapping spans). -/
theorem compiled_instructions_ordered (text : String) (tpl : CompiledTemplate)
    (h : BalsaBuilder.build text = .ok tpl) :
    List.Chain' (fun a b => a.start_pos < b.start_pos ∧ a.end_pos ≤ b.start_pos)
      tpl.replacements := by
  unfold BalsaBuilder.build at h
  cases hp : BalsaParser.parse text with
  | error e => simp [hp] at h
  | ok tokens =>
      simp only [hp] at h
      obtain ⟨hi, horder⟩ := parse_ordered text tokens hp
      obtain ⟨hpw, hmem⟩ := tokensOrdered_pairwise tokens 0 hi horder
      simp only [Compiler.compile_from_tokens] at h
      cases hc : compileTokens ⟨⟨[]⟩, []⟩ tokens with
      | error e => simp [hc] at h
      | ok cst =>
          simp only [hc] at h
          cases h
          obtain ⟨_, hrepl⟩ := compileTokens_ok _ _ _ hc
          simp only [List.nil_append] at hrepl
          show List.Chain' _ cst.replacements
          rw [hrepl]
          apply List.Pairwise.chain'
          rw [List.pairwise_filterMap]
          refine hpw.imp_of_mem ?_
          intro a b ha hb hS
          intro x hx y hy
          obtain ⟨hxs, hxe⟩ := instrOf_spans a x (Option.mem_def.mp hx)
          obtain ⟨hys, hye⟩ := instrOf_spans b y (Option.mem_def.mp hy)
          obtain ⟨ha0, halt⟩ := hmem a ha
          obtain ⟨hb0, hblt⟩ := hmem b hb
          constructor
          · rw [hxs, hys]
            omega
          · rw [hxe, hys]
            omega

/-- C8 witness: a template with two parameter blocks compiles, and the
ordering theorem applies to its two-instruction list. -/
theorem compiled_instructions_ordered_witness :
    BalsaBuilder.build "a\x7b\x7b x : int \x7d\x7db\x7b\x7b y : int \x7d\x7d" =
      .ok ⟨⟨[]⟩, [⟨1, 14, .Parameter ⟨"x", .Integer, none⟩⟩,
                  ⟨15, 28, .Parameter ⟨"y", .Integer, none⟩⟩]⟩ ∧
    List.Chain' (fun a b => a.start_pos < b.start_pos ∧ a.end_pos ≤ b.start_pos)
      (CompiledTemplate.mk ⟨[]⟩
        [⟨1, 14, .Parameter ⟨"x", .Integer, none⟩⟩,
         ⟨15, 28, .Parameter ⟨"y", .Integer, none⟩⟩]).replacements :=
  ⟨by decide,
   compiled_instructions_ordered "a\x7b\x7b x : int \x7d\x7db\x7b\x7b y : int \x7d\x7d"
     ⟨⟨[]⟩, [⟨1, 14, .Parameter ⟨"x", .Integer, none⟩⟩,
             ⟨15, 28, .Parameter ⟨"y", .Integer, none⟩⟩]⟩ (by decide)⟩
